import Mathlib

/-!
Verification of the pandas-tsdb encode/decode core (src/influxdb/indb_pd.py
and src/influxdb/indb_io.py) against its natural-language specification.

Shallow embedding conventions:
* A Python cell value is `Val`: `null` stands for both `None` and `NaN`
  (the two are indistinguishable to `is_null`/`dropna`), `int` for numbers,
  `str` for strings and `dt` for a `numpy.datetime64` carried as integer
  nanoseconds since the Unix epoch.
* The external numpy collaborators are modelled at the value level:
  `np_dt64` is `np.datetime64(v)` (succeeding on datetimes, giving `NaT` on
  null, raising on other scalars; free-text date parsing belongs to the
  excluded collaborator and is modelled as non-coercible), `np_dt64_str` is
  the nanosecond ISO rendering used only as an injective placeholder.
* Python dicts are association lists with first-match lookup and
  replace-in-place-or-append update; a pandas DataFrame is `Df`: an index
  column plus named value columns in order.
* A raised exception is an `IndbErr` in an `Except`;
  `npFault` stands for an uncaught numpy/pandas `TypeError`/`ValueError`.
-/

namespace IndbSpec

/-- A Python scalar cell value as the encoder/decoder sees it. -/
inductive Val where
  | null : Val
  | int : Int → Val
  | str : String → Val
  | dt : Int → Val
deriving DecidableEq, Repr

/-- The exception classes of indb_io.py / indb_pd.py that the core raises. -/
inductive IndbErr where
  | emptyData : String → IndbErr
  | influxDBBadQuery : String → IndbErr
  | measurementNotFound : String → IndbErr
  | fieldNotFound : String → IndbErr
  | queryError : String → IndbErr
  | npFault : IndbErr
deriving DecidableEq, Repr

/-- Python truthiness of a cell value (`if val:`). -/
def truthy (v : Val) : Bool :=
  match v with
  | .null => false
  | .int n => n != 0
  | .str s => !s.isEmpty
  | .dt _ => true

/-- Python `str(val)` for the values we model. `np_dt64_str` stands in for the
external nanosecond ISO rendering of a datetime (injective placeholder for the
numpy collaborator). -/
def np_dt64_str (n : Int) : String := "np.datetime64 ns " ++ toString n

def py_str (v : Val) : String :=
  match v with
  | .null => "None"
  | .int n => toString n
  | .str s => s
  | .dt n => np_dt64_str n

/-- indb_pd.is_null: flexible missing check. `None`/`NaN` are missing; with
`zero_null` an all-zero numeric value is missing too (a string never is:
`np.isnan` raises on it and `np.array(s) == 0` is false). -/
def is_null (val : Val) (zero_null : Bool) : Bool :=
  match val with
  | .null => true
  | .int n => zero_null && n == 0
  | .str _ => false
  | .dt _ => false

/-- json_valid of indb_pd.py: `json.dumps` succeeds on null/number/string; a
datetime falls through the `to_json`/`tolist`/`tostring` capability chain and
comes back as a value again, so on our value type the function is the
identity. -/
def json_valid (v : Val) : Val := v

/-- `np.datetime64(v)`: `some (some n)` a real instant, `some none` NaT,
`none` the call raises (non-datetime scalars; free-text parsing is the
excluded collaborator). -/
def np_dt64 (v : Val) : Option (Option Int) :=
  match v with
  | .dt n => some (some n)
  | .null => some none
  | .int _ => none
  | .str _ => none

/-- `np.datetime64(v, 'us')` (the microsecond-resolution retry): an integer is
read as a count of microseconds, a datetime is truncated to microseconds. -/
def np_dt64_us (v : Val) : Option (Option Int) :=
  match v with
  | .dt n => some (some (n.tdiv 1000 * 1000))
  | .null => some none
  | .int k => some (some (k * 1000))
  | .str _ => none

/-! String helpers. Python operates on strings character-wise; we work on the
underlying character lists so that every operation is structurally recursive
and kernel-reducible. -/

/-- Is `p` a leading piece of `l`? (Python `s.startswith(p)` on char lists.) -/
def list_is_pre : List Char → List Char → Bool
  | [], _ => true
  | _ :: _, [] => false
  | a :: p, b :: l => a == b && list_is_pre p l

/-- Python `pat in s` on char lists. -/
def list_has_sub (pat : List Char) : List Char → Bool
  | [] => list_is_pre pat []
  | b :: l => list_is_pre pat (b :: l) || list_has_sub pat l

/-- Python `s.startswith(p)`. -/
def startsWithS (s p : String) : Bool := list_is_pre p.data s.data

/-- Python `pat in s`. -/
def containsSub (s pat : String) : Bool := list_has_sub pat.data s.data

/-- Python `s[n:]` (drop the first `n` characters). -/
def dropS (s : String) (n : Nat) : String := ⟨s.data.drop n⟩

/-- Python `s.endswith(p)`. -/
def endsWithS (s p : String) : Bool := list_is_pre p.data.reverse s.data.reverse

/-- Python `s.lower()`. -/
def lowerS (s : String) : String := ⟨s.data.map Char.toLower⟩

/-- Python `".".join(pieces)`. -/
def join_dots : List String → String
  | [] => ""
  | [a] => a
  | a :: b :: t => a ++ "." ++ join_dots (b :: t)

/-- Python `s.split(".")` on char lists. -/
def split_dots : List Char → List (List Char)
  | [] => [[]]
  | c :: t =>
    match split_dots t with
    | [] => [[c]]
    | h :: r => if c == '.' then [] :: (h :: r) else (c :: h) :: r

/-! Python dicts with string keys, as association lists. -/

abbrev Dict := List (String × Val)

/-- `d.get(k)`. -/
def dget (d : Dict) (k : String) : Option Val :=
  (d.find? (fun kv => kv.1 == k)).map (fun kv => kv.2)

/-- `d[k] = v`: replace in place, else append. -/
def dset (d : Dict) (k : String) (v : Val) : Dict :=
  if d.any (fun kv => kv.1 == k) then
    d.map (fun kv => if kv.1 == k then (k, v) else kv)
  else d ++ [(k, v)]

/-- `k in d`. -/
def dmem (d : Dict) (k : String) : Bool := d.any (fun kv => kv.1 == k)

/-- Python truthiness of `d.get(k)` (`not labels.get(label)` and friends). -/
def dget_truthy (d : Dict) (k : String) : Bool :=
  match dget d k with
  | some v => truthy v
  | none => false

/-! indb_pd.get_parts / filter_ns: namespace candidate prefixes and
namespace stripping. -/

/-- indb_pd.get_parts: the dotted sub-suffixes of the namespace, longest
first: `get_parts "a.b.c."` is `["a.b.c.", "b.c.", "c."]`. -/
def get_parts (ns : String) : List String :=
  if ns.isEmpty then []
  else
    let parts := (split_dots ns.data).map (fun l => (⟨l⟩ : String))
    let n := parts.length
    (List.range (n - 1)).map (fun i => join_dots (parts.drop i))

/-- indb_pd.filter_ns: strip the namespace candidates from a column name. The
loop keeps the longest candidate matched so far and chops each newly longer
match off the current (already chopped) name. -/
def filter_ns (parts : List String) (sensor : String) : String :=
  (parts.foldl
    (fun st p =>
      if startsWithS sensor p && decide (p.length > st.1.length) then
        (p, dropS st.2 p.length)
      else st)
    ("", sensor)).2

/-- The spec's wording of namespace stripping (claim C6): remove exactly the
longest candidate prefix that matches the column name; a column with no
matching candidate is unchanged. -/
def strip_longest_spec (parts : List String) (col : String) : String :=
  let ms := parts.filter (fun p => startsWithS col p)
  if ms.isEmpty then col
  else dropS col (ms.foldl (fun a p => max a p.length) 0)

/-! The pandas DataFrame, column-major: an index plus named value columns in
order. Well-formedness (`Df.Wf`): every column is as long as the index. -/

structure Df where
  index : List Val
  cols : List (String × List Val)
deriving DecidableEq, Repr

def Df.Wf (df : Df) : Prop :=
  ∀ c ∈ df.cols, c.2.length = df.index.length

/-- `df.rename(columns=f)`. -/
def Df.renameCols (df : Df) (f : String → String) : Df :=
  ⟨df.index, df.cols.map (fun c => (f c.1, c.2))⟩

/-- `name in df`. -/
def Df.hasCol (df : Df) (name : String) : Bool :=
  df.cols.any (fun c => c.1 == name)

/-- `df[name]` (values of the first column of that name). -/
def Df.getColVals (df : Df) (name : String) : List Val :=
  ((df.cols.find? (fun c => c.1 == name)).map (fun c => c.2)).getD []

/-- `df.drop(name, axis=1)` (drops every column of that name). -/
def Df.dropCol (df : Df) (name : String) : Df :=
  ⟨df.index, df.cols.filter (fun c => c.1 != name)⟩

def setColAux (name : String) (vs : List Val) :
    List (String × List Val) → List (String × List Val)
  | [] => [(name, vs)]
  | c :: rest =>
    if c.1 == name then (name, vs) :: rest else c :: setColAux name vs rest

/-- `df[name] = vs`: replace the column in place, else append it. -/
def Df.setCol (df : Df) (name : String) (vs : List Val) : Df :=
  ⟨df.index, setColAux name vs df.cols⟩

/-- `df.dropna(axis=1, how='all')`: drop columns that are null in every row. -/
def Df.dropAllNullCols (df : Df) : Df :=
  ⟨df.index, df.cols.filter (fun c => !c.2.all (fun v => is_null v false))⟩

/-- `df.dropna(axis=0, how='all')`: keep rows with at least one non-null cell
(with zero columns every row counts as all-null, as in pandas). -/
def Df.dropAllNullRows (df : Df) : Df :=
  let keep := (List.range df.index.length).filter
    (fun i => df.cols.any (fun c => !is_null (c.2.getD i .null) false))
  ⟨keep.map (fun i => df.index.getD i .null),
   df.cols.map (fun c => (c.1, keep.map (fun i => c.2.getD i .null)))⟩

/-- One row of `df.iterrows()`: the cells of row `i` in column order. -/
def Df.rowCells (df : Df) (i : Nat) : List (String × Val) :=
  df.cols.map (fun c => (c.1, c.2.getD i .null))

/-! The wire-format output types (write payload of section 6). -/

structure Point where
  name : String
  fields : List (String × Val)
  precision : Option String
  timestamp : Option Val
  tags : Option (List (String × String))
deriving DecidableEq, Repr

structure Batch where
  points : List Point
  precision : String
  retentionPolicy : Option String
  database : Option String
  timestamp : Option Val
  tags : Option (List (String × String))
deriving DecidableEq, Repr

/-! The encoder: indb_pd.df_to_indb. -/

/-- The process-wide inline-label alias table of indb_pd.py. -/
def default_inline_labels : List (String × String) :=
  [("_pk", "pk"), ("_loc", "loc"), ("_user_id", "user_id"), ("_session", "session")]

/-- Labels that do not go to tags (indb_pd.special_labels). -/
def special_labels : List (String × String) := [("_time", "time")]

/-- `_fix_special` of df_to_indb: rename a column equal to a public label name
back to its internal key. -/
def fix_special (inlabels : List (String × String)) (sensor : String) : String :=
  match inlabels.find? (fun kv => kv.2 == sensor) with
  | some kv => kv.1
  | none =>
    match special_labels.find? (fun kv => kv.2 == sensor) with
    | some kv => kv.1
    | none => sensor

/-- The `to_precision` map of df_to_indb (`us -> u`, `ns -> n`, pass the rest
through). -/
def to_precision (p : String) : String :=
  if p == "us" then "u" else if p == "ns" then "n" else p

/-- Nanoseconds per unit of a precision string, for
`(ts - epoch) / np.timedelta64(1, precision)`; `none` when numpy would reject
the unit. -/
def precDen (p : String) : Option Int :=
  if p == "ms" then some 1000000
  else if p == "us" then some 1000
  else if p == "ns" then some 1
  else if p == "s" then some 1000000000
  else none

/-- All-or-nothing elementwise datetime coercion (`np.array([...])` /
`Series.apply`): `none` when any element raises. -/
def traverseDt (f : Val → Option (Option Int)) : List Val → Option (List (Option Int))
  | [] => some []
  | v :: t =>
    match f v with
    | none => none
    | some a => (traverseDt f t).map (fun r => a :: r)

/-- The shared tail of `_get_ts`: render the coerced instants either as
nanosecond text (`strtime`) or as integer counts since the epoch at the given
precision; `int(NaN)` on a NaT and an unknown precision unit raise. -/
def render_ts (strtime : Bool) (precision : String) (ts : List (Option Int)) :
    Except IndbErr (List Val) :=
  if strtime then
    .ok (ts.map (fun t =>
      match t with
      | some n => Val.str (np_dt64_str n)
      | none => Val.str "NaT"))
  else
    match precDen precision with
    | none => .error .npFault
    | some den =>
      if ts.all (fun t => t.isSome) then
        .ok (ts.map (fun t => Val.int ((t.getD 0).tdiv den)))
      else .error .npFault

/-- `_get_ts` of df_to_indb: derive the per-row timestamps from the index,
else from a `_time` column, else from `labels['time']`. `ok none` means no
timestamp at all (the backend assigns ingestion time); the `labels['time']`
path with a non-null value always faults (the scalar reaches the list
comprehension `for t in ts`, which raises on a scalar). -/
def get_ts (labels : Dict) (strtime : Bool) (precision : String) (df : Df) :
    Except IndbErr (Option (List Val)) :=
  match traverseDt np_dt64 df.index with
  | some ts => (render_ts strtime precision ts).map some
  | none =>
    if df.hasCol "_time" then
      match traverseDt np_dt64 (df.getColVals "_time") with
      | some ts => (render_ts strtime precision ts).map some
      | none =>
        match traverseDt np_dt64_us (df.getColVals "_time") with
        | some ts => (render_ts strtime precision ts).map some
        | none => .error .npFault
    else
      match dget labels "time" with
      | none => .ok none
      | some .null => .ok none
      | some _ => .error .npFault

/-- The batch-level tag factoring loop (df_to_indb lines 203-209): an
inline-label column with one distinct value, whose internal key is not
pinned with a truthy value in `labels`, is promoted into `labels` under its
public name and dropped from the table. -/
def factorTags (inlabels : List (String × String)) (df : Df) (labels : Dict) :
    Df × Dict :=
  inlabels.foldl
    (fun st kv =>
      let df := st.1
      let labels := st.2
      if df.hasCol kv.1 && !dget_truthy labels kv.1 then
        if (df.getColVals kv.1).dedup.length == 1 then
          (df.dropCol kv.1, dset labels kv.2 ((df.getColVals kv.1).getD 0 .null))
        else (df, labels)
      else (df, labels))
    (df, labels)

/-- The row-tag loop of the per-row emission (df_to_indb lines 239-248): an
inline-label column whose value differs from the pinned `labels` entry of the
same internal key becomes a row-level tag under its public name. -/
def rowTags (labels : Dict) (inlabels : List (String × String))
    (subset : List String) (cells : List (String × Val)) : Dict :=
  cells.foldl
    (fun m sv =>
      if is_null sv.2 false then m
      else if startsWithS sv.1 "_" && !subset.contains sv.1 then
        if !(inlabels.any (fun kv => kv.1 == sv.1)) then m
        else
          match dget labels sv.1 with
          | some lv => if lv == sv.2 then m
              else dset m (((inlabels.find? (fun kv => kv.1 == sv.1)).map
                (fun kv => kv.2)).getD "") sv.2
          | none => dset m (((inlabels.find? (fun kv => kv.1 == sv.1)).map
              (fun kv => kv.2)).getD "") sv.2
      else m)
    []

/-- The field loop of the per-row emission (df_to_indb lines 250-272): every
surviving field cell becomes its own point named `ns + sensor` with the single
field `value`. The zero-as-missing drop is hard-coded (`zero_null=True`)
regardless of the caller's `zero_null` argument. -/
def point_ts (tsv : Option Val) : Option Val :=
  match tsv with
  | none => none
  | some t => if is_null t false then none else some t

def point_tags (mlabels : Dict) : Option (List (String × String)) :=
  if mlabels.isEmpty then none
  else some (mlabels.map (fun kv => (kv.1, py_str kv.2)))

def rowPoints (ns : String) (subset : List String) (precOut : String)
    (force_precision : Bool) (tsv : Option Val) (mlabels : Dict)
    (cells : List (String × Val)) : List Point :=
  cells.filterMap
    (fun sv =>
      if sv.1 == "time" then none
      else if is_null sv.2 true then none
      else if startsWithS sv.1 "_" && !subset.contains sv.1 then none
      else some
        { name := ns ++ sv.1
          fields := [("value", json_valid sv.2)]
          precision := if force_precision then some precOut else none
          timestamp := point_ts tsv
          tags := point_tags mlabels })

/-- One row of the emission loop: drop the row's nulls, collect its tags,
read its timestamp, emit its points. -/
def emitRow (labels : Dict) (inlabels : List (String × String))
    (subset : List String) (ns : String) (precOut : String)
    (force_precision : Bool) (df : Df) (i : Nat) : List Point :=
  let cells := (df.rowCells i).filter (fun sv => !is_null sv.2 false)
  let mlabels := rowTags labels inlabels subset cells
  let tsv := ((cells.find? (fun sv => sv.1 == "time")).map (fun sv => sv.2))
  rowPoints ns subset precOut force_precision tsv mlabels cells

/-- The whole per-row emission loop (df_to_indb lines 237-272). -/
def emitPoints (labels : Dict) (inlabels : List (String × String))
    (subset : List String) (ns : String) (precOut : String)
    (force_precision : Bool) (df : Df) : List Point :=
  (List.range df.index.length).foldr
    (fun i acc => emitRow labels inlabels subset ns precOut force_precision df i ++ acc)
    []

/-- The namespace normalisation of df_to_indb (lines 153-156): falsy becomes
the empty namespace, otherwise a trailing dot is ensured. -/
def norm_ns (ns0 : Option String) : String :=
  match ns0 with
  | none => ""
  | some s => if s.isEmpty then "" else if endsWithS s "." then s else s ++ "."

/-- The column-renaming and pruning front half of df_to_indb (lines 141-168):
rename public label names to internal keys, strip the namespace candidates,
drop all-null columns then all-null rows. -/
def encode_prepare (inlabels : List (String × String)) (ns : String) (df : Df) : Df :=
  let df := df.renameCols (fix_special inlabels)
  let parts := get_parts ns
  let df := if parts.isEmpty then df else df.renameCols (filter_ns parts)
  df.dropAllNullCols.dropAllNullRows

/-- The `labels` dict after the `ts` argument is folded in (df_to_indb lines
132-135): a truthy default timestamp is written under key "time". -/
def encode_labels1 (labels0 : Dict) (ts0 : Option Val) : Dict :=
  match ts0 with
  | some t => if truthy t then dset labels0 "time" t else labels0
  | none => labels0

/-- `df['time'] = _get_ts(...)` (df_to_indb line 200): a `None` result
broadcasts null to every row. -/
def with_time_col (df : Df) (tsCol : Option (List Val)) : Df :=
  df.setCol "time"
    (match tsCol with
     | none => List.replicate df.index.length .null
     | some l => l)

/-- The table the per-row loop iterates (df_to_indb lines 203-230): after tag
factoring and, when the time column is constant, its removal. -/
def encode_emit_df (inlabels : List (String × String)) (labels1 : Dict)
    (df : Df) (tsCol : Option (List Val)) : Df :=
  let df2 := (factorTags inlabels (with_time_col df tsCol) labels1).1
  if (df2.getColVals "time").dedup.length == 1 then df2.dropCol "time" else df2

/-- The full point list the encoder emits once the timestamps are derived. -/
def encode_points (inlabels : List (String × String)) (labels1 : Dict)
    (subset : List String) (ns : String) (precOut : String)
    (force_precision : Bool) (df : Df) (tsCol : Option (List Val)) : List Point :=
  emitPoints (factorTags inlabels (with_time_col df tsCol) labels1).2 inlabels
    subset ns precOut force_precision (encode_emit_df inlabels labels1 df tsCol)

/-- What the caller's labels dict holds after the call: Python mutates a
truthy caller dict in place, a falsy one is replaced by a fresh dict so the
caller's stays as it was. -/
def caller_sees (labels0 l : Dict) : Dict := if labels0.isEmpty then labels0 else l

/-- indb_pd.df_to_indb, with the mutable state of the caller's `labels` dict
made explicit: the second component of the result is what the caller's dict
holds after the call. All arguments are the Python keyword arguments in
order. -/
def df_to_indb_run (df : Df) (labels0 : Dict) (retentionPolicy database : Option String)
    (ns0 : Option String) (subset0 : Option (List String))
    (inlabels0 : Option (List (String × String))) (ts0 : Option Val)
    (zero_null : Bool) (precision : String) (strtime : Bool)
    (force_precision : Bool) : Except IndbErr Batch × Dict :=
  -- `zero_null` is accepted but never consulted: the field loop hard-codes
  -- `is_null(val, zero_null=True)` (the latent bug of claim C4).
  let _ := zero_null
  if df.index.length == 0 then (.error (.emptyData "Empty sensor data"), labels0)
  else
    let labels := encode_labels1 labels0 ts0
    let subset := subset0.getD []
    let inlabels := inlabels0.getD default_inline_labels
    let ns := norm_ns ns0
    let df := encode_prepare inlabels ns df
    if df.index.length == 0 then
      (.error (.emptyData "Empty sensor data"), caller_sees labels0 labels)
    else
      match get_ts labels strtime precision df with
      | .error e => (.error e, caller_sees labels0 labels)
      | .ok tsCol =>
        let st := factorTags inlabels (with_time_col df tsCol) labels
        let labels2 := st.2
        let precOut := to_precision precision
        let tvals := st.1.getColVals "time"
        let timeShared := tvals.dedup.length == 1
        let ts1 := tvals.getD 0 .null
        let batchTs := if timeShared && !is_null ts1 false then some ts1 else none
        let tags :=
          if labels2.isEmpty then none
          else some (labels2.map (fun kv => (kv.1, py_str kv.2)))
        let points := encode_points inlabels labels subset ns precOut force_precision df tsCol
        if points.isEmpty then
          (.error (.emptyData "Empty sensor data"), caller_sees labels0 labels2)
        else
          (.ok ⟨points, precOut, retentionPolicy, database, batchTs, tags⟩,
           caller_sees labels0 labels2)

/-- indb_pd.df_to_indb (the returned value alone). -/
def df_to_indb (df : Df) (labels0 : Dict) (retentionPolicy database : Option String)
    (ns0 : Option String) (subset0 : Option (List String))
    (inlabels0 : Option (List (String × String))) (ts0 : Option Val)
    (zero_null : Bool) (precision : String) (strtime : Bool)
    (force_precision : Bool) : Except IndbErr Batch :=
  (df_to_indb_run df labels0 retentionPolicy database ns0 subset0 inlabels0 ts0
    zero_null precision strtime force_precision).1

/-! The response classifier: indb_io._raise_error. -/

/-- indb_io._raise_error: format the message (status code and chunk index in
front when a chunk index is known), then classify it by case-insensitive
substring matching. The second rule requires "unknown" AND "field" AND "tag"
all to occur. -/
def raise_error (error : String) (chunk_idx : Option Nat) (code : Nat) : IndbErr :=
  let error :=
    match chunk_idx with
    | some i => toString code ++ ": " ++ toString i ++ ": " ++ error
    | none => error
  let pe := lowerS error
  if containsSub pe "measurement" && containsSub pe "not found" then
    .measurementNotFound error
  else if containsSub pe "unknown" && containsSub pe "field" && containsSub pe "tag" then
    .fieldNotFound error
  else .queryError error

/-- The classifier rule exactly as the spec of section 4.3 words it (claim C3):
"unknown" together with EITHER "field" or "tag" suffices for FieldNotFound. -/
def classify_spec (error : String) : IndbErr :=
  let pe := lowerS error
  if containsSub pe "measurement" && containsSub pe "not found" then
    .measurementNotFound error
  else if containsSub pe "unknown" && (containsSub pe "field" || containsSub pe "tag") then
    .fieldNotFound error
  else .queryError error

/-! The decoder: indb_pd.response_to_df. -/

/-- One series block of a query response. -/
structure SeriesRow where
  name : Option String
  tags : List (String × String)
  columns : Option (List String)
  values : Option (List (List Val))
deriving DecidableEq, Repr

/-- One result chunk of a query response. -/
structure Chunk where
  error : Option String
  series : Option (List SeriesRow)
deriving DecidableEq, Repr

/-- The decoder's input after the external JSON parse: absent/falsy, a parsed
response object (`results` may be missing), or the chunk list itself. -/
inductive RespData where
  | absent : RespData
  | obj : Option (List Chunk) → RespData
  | chunks : List Chunk → RespData
deriving DecidableEq, Repr

/-- `_get_col` of response_to_df: strip the longest configured namespace
(skipping absent/empty entries) off a column name; the un-stripped name is
re-read from the original column each time, unlike the encoder's filter_ns. -/
def get_col (all_ns : List (Option String)) (col : String) : String :=
  (all_ns.foldl
    (fun st nso =>
      match nso with
      | none => st
      | some ns =>
        if ns.isEmpty then st
        else if decide (ns.length > st.1.length) && startsWithS col ns then
          (ns, dropS col ns.length)
        else st)
    ("", col)).2

/-- `_name_of` of response_to_df: qualify a column as `measurement.column`,
special-casing `time` (kept verbatim) and `value` (renamed to the bare
measurement name). -/
def name_of (all_ns : List (Option String)) (nameOpt : Option String)
    (col : String) : String :=
  let named := match nameOpt with | some nm => !nm.isEmpty | none => false
  if col != "time" && named then
    let nm := nameOpt.getD ""
    if col == "value" then nm else nm ++ "." ++ get_col all_ns col
  else col

/-- `pd.DataFrame(values, columns=cs)`: default integer range index. -/
def dfOfValues (cs : List String) (values : List (List Val)) : Df :=
  ⟨(List.range values.length).map (fun i => Val.int i),
   cs.enum.map (fun p => (p.2, values.map (fun r => r.getD p.1 .null)))⟩

/-- `pd.concat(dfs)`: union of columns in order of first appearance, rows
stacked, missing cells null. -/
def pdConcat (dfs : List Df) : Df :=
  let names := (dfs.flatMap (fun d => d.cols.map (fun c => c.1))).dedup
  ⟨dfs.flatMap (fun d => d.index),
   names.map (fun n => (n, dfs.flatMap (fun d =>
     if d.hasCol n then d.getColVals n
     else List.replicate d.index.length Val.null)))⟩

/-- A total ordering on index keys for `sort_index`: instants by time, NaT
(null) last, the remaining kinds ranked in between. -/
def valLe (a b : Val) : Bool :=
  let rank : Val → Nat := fun v =>
    match v with
    | .dt _ => 0
    | .int _ => 1
    | .str _ => 2
    | .null => 3
  if rank a != rank b then decide (rank a < rank b)
  else
    match a, b with
    | .dt m, .dt n => decide (m ≤ n)
    | .int m, .int n => decide (m ≤ n)
    | .str s, .str t => decide (s ≤ t)
    | _, _ => true

/-- The rows of a table: (index key, cells across columns in order). -/
def Df.rows (df : Df) : List (Val × List Val) :=
  (List.range df.index.length).map
    (fun i => (df.index.getD i .null, df.cols.map (fun c => c.2.getD i .null)))

/-- Rebuild a table from named rows. -/
def dfOfRows (names : List String) (rows : List (Val × List Val)) : Df :=
  ⟨rows.map (fun r => r.1),
   names.enum.map (fun p => (p.2, rows.map (fun r => r.2.getD p.1 .null)))⟩

def insertRow (r : Val × List Val) : List (Val × List Val) → List (Val × List Val)
  | [] => [r]
  | x :: t => if valLe x.1 r.1 then x :: insertRow r t else r :: x :: t

def sortRows : List (Val × List Val) → List (Val × List Val)
  | [] => []
  | r :: t => insertRow r (sortRows t)

/-- `df.sort_index()` (a stable sort; pandas' default quicksort agrees with it
on the distinct-key tables our theorems range over). -/
def Df.sortIndex (df : Df) : Df :=
  dfOfRows (df.cols.map (fun c => c.1)) (sortRows df.rows)

/-- One series row of the decode loop (response_to_df lines 379-408): build
the sub-table, key it by its coerced time column, re-attach inline labels,
and file it under its partition tag (`pk`, else "unknown"). `ok none` is the
loop's `continue`. -/
def decode_series_row (all_ns : List (Option String))
    (inlabels : List (String × String)) (row : SeriesRow) :
    Except IndbErr (Option (String × Df)) :=
  match row.columns, row.values with
  | some columns, some values =>
    if columns.isEmpty || values.isEmpty then .ok none
    else
      let columns := columns.map (name_of all_ns row.name)
      let df := dfOfValues columns values
      let dfE : Except IndbErr Df :=
        if df.hasCol "time" then
          match traverseDt np_dt64 (df.getColVals "time") with
          | none => .error .npFault
          | some ts =>
            .ok ⟨ts.map (fun t =>
                  match t with
                  | some n => Val.dt n
                  | none => Val.null),
                 (df.dropCol "time").cols⟩
        else .ok df
      match dfE with
      | .error e => .error e
      | .ok df =>
        let lbls := row.tags
        let df := inlabels.foldl
          (fun d kv =>
            match lbls.find? (fun t => t.1 == kv.2) with
            | some t => d.setCol kv.1 (List.replicate d.index.length (Val.str t.2))
            | none => d)
          df
        let pk :=
          match lbls.find? (fun t => t.1 == "pk") with
          | some t => if t.2.isEmpty then "unknown" else t.2
          | none => "unknown"
        .ok (some (pk, df))
  | _, _ => .ok none

/-- Append a sub-table to its partition bucket (insertion order kept). -/
def sdfs_insert (sdfs : List (String × List Df)) (pk : String) (df : Df) :
    List (String × List Df) :=
  if sdfs.any (fun b => b.1 == pk) then
    sdfs.map (fun b => if b.1 == pk then (b.1, b.2 ++ [df]) else b)
  else sdfs ++ [(pk, [df])]

def decode_rows (all_ns : List (Option String)) (inlabels : List (String × String)) :
    List SeriesRow → List (String × List Df) → Except IndbErr (List (String × List Df))
  | [], sdfs => .ok sdfs
  | r :: t, sdfs =>
    match decode_series_row all_ns inlabels r with
    | .error e => .error e
    | .ok none => decode_rows all_ns inlabels t sdfs
    | .ok (some pd) => decode_rows all_ns inlabels t (sdfs_insert sdfs pd.1 pd.2)

/-- The chunk loop of response_to_df (lines 369-408): a chunk with a truthy
embedded error raises InfluxDBSyntaxError (modelled by `influxDBBadQuery`)
carrying `chunk_idx: error`; otherwise its series rows are folded into the
partition buckets. -/
def decode_chunks (all_ns : List (Option String)) (inlabels : List (String × String)) :
    Nat → List Chunk → List (String × List Df) →
    Except IndbErr (List (String × List Df))
  | _, [], sdfs => .ok sdfs
  | idx, c :: t, sdfs =>
    let hasErr := match c.error with | some e => !e.isEmpty | none => false
    if hasErr then
      .error (.influxDBBadQuery (toString idx ++ ": " ++ (c.error.getD "")))
    else
      match c.series with
      | none => decode_chunks all_ns inlabels (idx + 1) t sdfs
      | some rows =>
        if rows.isEmpty then decode_chunks all_ns inlabels (idx + 1) t sdfs
        else
          match decode_rows all_ns inlabels rows sdfs with
          | .error e => .error e
          | .ok sdfs => decode_chunks all_ns inlabels (idx + 1) t sdfs

/-- indb_pd.response_to_df: decode a query response into a table. An absent or
falsy response gives an empty table; `extra_ns` are the `ns1, ns2, ...`
keyword namespaces. -/
def response_to_df (data : RespData) (ns : Option String)
    (inlabels0 : Option (List (String × String))) (extra_ns : List String) :
    Except IndbErr Df :=
  match data with
  | .absent => .ok ⟨[], []⟩
  | data =>
    let cs :=
      match data with
      | .obj r => r.getD []
      | .chunks cs => cs
      | .absent => []
    let inlabels := inlabels0.getD default_inline_labels
    let all_ns : List (Option String) := ns :: extra_ns.map some
    match decode_chunks all_ns inlabels 0 cs [] with
    | .error e => .error e
    | .ok sdfs =>
      if sdfs.isEmpty then .ok ⟨[], []⟩
      else
        let dfs := (sdfs.filter (fun b => !b.2.isEmpty)).map (fun b => pdConcat b.2)
        if dfs.isEmpty then .ok ⟨[], []⟩
        else .ok (pdConcat dfs).sortIndex

/-- Modelled from the spec: "the resulting point batch's equivalent
query-response shape" of the round-trip property (section 8). The spec never
gives this shape in code; it is assembled here from the documented response
format of section 6: points grouped by measurement name into series, the
shared batch tags as series tags, each row's instant rebuilt from the point's
(or the batch's) integer timestamp at the batch precision. -/
def denOfPrecOut (p : String) : Int :=
  if p == "ms" then 1000000
  else if p == "u" then 1000
  else if p == "n" then 1
  else if p == "s" then 1000000000
  else 1

def effTsInt (b : Batch) (p : Point) : Option Int :=
  match p.timestamp with
  | some (.int t) => some t
  | some _ => none
  | none =>
    match b.timestamp with
    | some (.int t) => some t
    | _ => none

/-- The candidate list of get_parts written recursively: each proper dotted
suffix keeping at least one separator (proof-friendly form of the range/map
comprehension). -/
def suffixes_aux : List String → List String
  | [] => []
  | [_] => []
  | a :: b :: t => join_dots (a :: b :: t) :: suffixes_aux (b :: t)

/-- A chunk the decode loop passes over without touching the partition
buckets: no truthy embedded error and no series rows. -/
def ChunkSkippable (c : Chunk) : Prop :=
  (c.error = none ∨ c.error = some "") ∧ (c.series = none ∨ c.series = some [])

def respOfBatch (b : Batch) : RespData :=
  let den := denOfPrecOut b.precision
  let names := (b.points.map (fun p => p.name)).dedup
  RespData.chunks [⟨none, some (names.map (fun nm =>
    let pts := b.points.filter (fun p => p.name == nm)
    let withTime := pts.all (fun p => (effTsInt b p).isSome)
    { name := some nm
      tags := (b.tags.getD []) ++ ((pts.head?.bind (fun p => p.tags)).getD [])
      columns := some (if withTime then ["time", "value"] else ["value"])
      values := some (pts.map (fun p =>
        (if withTime then [Val.dt (((effTsInt b p).getD 0) * den)] else []) ++
        [((p.fields.find? (fun f => f.1 == "value")).map (fun f => f.2)).getD .null])) }))⟩]

/-! # Theorems -/

/-! ## Helper lemmas for C6 (namespace stripping) -/

theorem dropS_zero (s : String) : dropS s 0 = s := by
  simp [dropS]

/-- Once the longest match is held, the rest of a length-decreasing candidate
list never strips again. -/
theorem filter_ns_stall (col : String) (st : String × String) (t : List String)
    (h : ∀ q ∈ t, q.length ≤ st.1.length) :
    t.foldl
      (fun st p =>
        if startsWithS col p && decide (p.length > st.1.length) then
          (p, dropS st.2 p.length)
        else st) st = st := by
  induction t with
  | nil => rfl
  | cons q t ih =>
    have hq : q.length ≤ st.1.length := h q (by simp)
    simp only [List.foldl_cons, decide_eq_false (Nat.not_lt.mpr hq), Bool.and_false,
      Bool.false_eq_true, if_false]
    exact ih (fun q hq2 => h q (by simp [hq2]))

theorem foldl_max_le (a : Nat) (t : List String) (h : ∀ x ∈ t, x.length ≤ a) :
    t.foldl (fun acc p => max acc p.length) a = a := by
  induction t with
  | nil => rfl
  | cons q t ih =>
    have : max a q.length = a := Nat.max_eq_left (h q (by simp))
    simp only [List.foldl_cons, this]
    exact ih (fun x hx => h x (by simp [hx]))

/-- On a candidate list with strictly decreasing lengths, the source's
filter_ns computes exactly the spec's longest-matching-prefix strip. -/
theorem filter_ns_eq_spec (parts : List String) (col : String)
    (h : parts.Pairwise (fun a b => b.length < a.length)) :
    filter_ns parts col = strip_longest_spec parts col := by
  induction parts with
  | nil => rfl
  | cons p t ih =>
    rw [List.pairwise_cons] at h
    obtain ⟨h1, h2⟩ := h
    by_cases hm : startsWithS col p = true
    · rcases Nat.eq_zero_or_pos p.length with hp0 | hp
      · have ht : t = [] := by
          cases t with
          | nil => rfl
          | cons q t2 => exact absurd (h1 q (by simp)) (by omega)
        subst ht
        simp [filter_ns, strip_longest_spec, hm, hp0, dropS_zero]
      · simp only [filter_ns, List.foldl_cons, hm, true_and]
        rw [if_pos (by simp [hp])]
        rw [filter_ns_stall col (p, dropS col p.length) t
          (fun q hq => Nat.le_of_lt (h1 q hq))]
        simp only [strip_longest_spec, List.filter_cons, hm]
        simp only [if_true, List.isEmpty_cons, Bool.false_eq_true, if_false]
        rw [List.foldl_cons]
        rw [Nat.max_eq_right (Nat.zero_le _)]
        rw [foldl_max_le p.length _ (fun x hx => by
          have := h1 x (List.mem_of_mem_filter hx)
          omega)]
    · simp only [filter_ns, List.foldl_cons, hm, Bool.false_and,
        Bool.false_eq_true, if_false]
      have := ih h2
      simp only [filter_ns] at this
      rw [this]
      simp [strip_longest_spec, List.filter_cons, hm]

theorem join_dots_len_cons (a b : String) (t : List String) :
    (join_dots (a :: b :: t)).length = a.length + 1 + (join_dots (b :: t)).length := by
  show (a ++ "." ++ join_dots (b :: t)).length = _
  simp [String.length_append]
  rfl

theorem range_map_join_eq_suffixes (l : List String) :
    (List.range (l.length - 1)).map (fun i => join_dots (l.drop i)) = suffixes_aux l := by
  induction l with
  | nil => rfl
  | cons a t ih =>
    cases t with
    | nil => rfl
    | cons b t2 =>
      have hlen : (a :: b :: t2).length - 1 = t2.length + 1 := by simp
      rw [hlen, List.range_succ_eq_map]
      simp only [List.map_cons, List.map_map, List.drop_zero]
      have hfun : ((fun i => join_dots ((a :: b :: t2).drop i)) ∘ Nat.succ) =
          (fun i => join_dots ((b :: t2).drop i)) := by
        funext i
        simp [List.drop_succ_cons]
      rw [hfun]
      have ih2 := ih
      have hlen2 : (b :: t2).length - 1 = t2.length := by simp
      rw [hlen2] at ih2
      rw [suffixes_aux, ih2]

theorem suffixes_len_le (l : List String) :
    ∀ s ∈ suffixes_aux l, s.length ≤ (join_dots l).length := by
  induction l with
  | nil => intro s hs; simp [suffixes_aux] at hs
  | cons a t ih =>
    cases t with
    | nil => intro s hs; simp [suffixes_aux] at hs
    | cons b t2 =>
      intro s hs
      rw [suffixes_aux] at hs
      rcases List.mem_cons.mp hs with h | h
      · subst h; exact Nat.le_refl _
      · have h1 := ih s h
        have h2 := join_dots_len_cons a b t2
        omega

theorem suffixes_pairwise (l : List String) :
    (suffixes_aux l).Pairwise (fun a b => b.length < a.length) := by
  induction l with
  | nil => exact List.Pairwise.nil
  | cons a t ih =>
    cases t with
    | nil => exact List.Pairwise.nil
    | cons b t2 =>
      rw [suffixes_aux, List.pairwise_cons]
      refine ⟨fun s hs => ?_, ih⟩
      have h1 := suffixes_len_le (b :: t2) s hs
      have h2 := join_dots_len_cons a b t2
      omega

/-- The namespace candidates of get_parts come longest first, with strictly
decreasing lengths. -/
theorem get_parts_pairwise (ns : String) :
    (get_parts ns).Pairwise (fun a b => b.length < a.length) := by
  rw [get_parts]
  by_cases h : ns.isEmpty
  · simp [h]
  · simp only [h, Bool.false_eq_true, if_false]
    rw [range_map_join_eq_suffixes]
    exact suffixes_pairwise _

/-- C6: for every configured namespace and every column name, namespace
stripping removes exactly the longest candidate prefix that matches the
column name (columns with no matching candidate are unchanged — that is what
strip_longest_spec says); in particular, with candidate prefixes
["a.b.c.", "b.c.", "c."] the column "a.b.c.temp" becomes "temp". -/
theorem C6_namespace_strip_longest :
    (∀ ns col, filter_ns (get_parts ns) col = strip_longest_spec (get_parts ns) col) ∧
    filter_ns ["a.b.c.", "b.c.", "c."] "a.b.c.temp" = "temp" :=
  ⟨fun ns col => filter_ns_eq_spec _ col (get_parts_pairwise ns), by decide⟩

/-! ## C3: the response classifier -/

/-- C3 (amended): the classifier decides by case-insensitive substring
matching, but the schema-mismatch rule fires only when the text contains
"unknown" AND "field" AND "tag" all three (and the measurement rule does not
fire first) — "unknown" with only one of "field"/"tag" is a generic
QueryError, contrary to the claim's either-one-suffices reading. -/
theorem C3_fieldNotFound_needs_field_and_tag (e : String) :
    raise_error e none 200 = .fieldNotFound e ↔
      (¬(containsSub (lowerS e) "measurement" = true ∧
         containsSub (lowerS e) "not found" = true) ∧
       containsSub (lowerS e) "unknown" = true ∧
       containsSub (lowerS e) "field" = true ∧
       containsSub (lowerS e) "tag" = true) := by
  simp only [raise_error]
  by_cases h1 : (containsSub (lowerS e) "measurement" && containsSub (lowerS e) "not found") = true
  · rw [if_pos h1]
    simp only [Bool.and_eq_true] at h1
    simp [h1]
  · rw [if_neg h1]
    simp only [Bool.and_eq_true, not_and] at h1
    by_cases h2 : (containsSub (lowerS e) "unknown" && containsSub (lowerS e) "field" &&
        containsSub (lowerS e) "tag") = true
    · rw [if_pos h2]
      simp only [Bool.and_eq_true] at h2
      constructor
      · intro _
        refine ⟨?_, h2.1.1, h2.1.2, h2.2⟩
        intro hc
        exact absurd (h1 hc.1) (by simp [hc.2])
      · intro _; rfl
    · rw [if_neg h2]
      simp only [Bool.and_eq_true, not_and] at h2
      constructor
      · intro hc; exact absurd hc (by simp)
      · rintro ⟨_, hu, hf, ht⟩
        exact absurd (h2 ⟨hu, hf⟩) (by simp [ht])

/-- C3 counterexample: "unknown field: f" contains "unknown" and "field" but
not "tag"; the spec's rule classifies it FieldNotFound, the code raises the
generic QueryError. -/
theorem C3_counterexample :
    raise_error "unknown field: f" none 200 = .queryError "unknown field: f" ∧
    classify_spec "unknown field: f" = .fieldNotFound "unknown field: f" := by
  constructor <;> rfl

/-! ## C1: decoder error behaviour -/

theorem decode_chunks_skip (all_ns : List (Option String))
    (il : List (String × String)) (pre rest : List Chunk)
    (h : ∀ c ∈ pre, ChunkSkippable c) :
    ∀ idx sdfs, decode_chunks all_ns il idx (pre ++ rest) sdfs =
      decode_chunks all_ns il (idx + pre.length) rest sdfs := by
  induction pre with
  | nil => intro idx sdfs; simp
  | cons c pre ih =>
    intro idx sdfs
    obtain ⟨he, hs⟩ := h c (by simp)
    have hrec := ih (fun c2 hc2 => h c2 (by simp [hc2])) (idx + 1) sdfs
    have hgoal : decode_chunks all_ns il idx ((c :: pre) ++ rest) sdfs =
        decode_chunks all_ns il (idx + 1) (pre ++ rest) sdfs := by
      show decode_chunks all_ns il idx (c :: (pre ++ rest)) sdfs = _
      rw [decode_chunks]
      have h0 : "".isEmpty = true := rfl
      rcases he with he | he <;> rcases hs with hs | hs <;> simp [he, hs, h0]
    rw [hgoal, hrec]
    congr 1
    simp
    omega

theorem decode_chunks_error (all_ns : List (Option String))
    (il : List (String × String)) (c : Chunk) (cs : List Chunk) (e : String)
    (he : c.error = some e) (hne : e.isEmpty = false) :
    ∀ idx sdfs, decode_chunks all_ns il idx (c :: cs) sdfs =
      .error (.influxDBBadQuery (toString idx ++ ": " ++ e)) := by
  intro idx sdfs
  rw [decode_chunks]
  simp [he, hne]

/-- C1 (amended): an absent/empty response (or one whose results list is
missing or empty) decodes to an empty table without failing; a response whose
first non-skipped chunk carries a truthy embedded error makes the decoder
raise the generic InfluxDBSyntaxError (here `influxDBBadQuery`) carrying
"chunkIndex: message" — NOT the classified 4.3 taxonomy that the claim
states. -/
theorem C1_decode_error_and_empty :
    (response_to_df .absent none none [] = .ok ⟨[], []⟩) ∧
    (∀ ns il ex, response_to_df (.obj none) ns il ex = .ok ⟨[], []⟩) ∧
    (∀ ns il ex, response_to_df (.chunks []) ns il ex = .ok ⟨[], []⟩) ∧
    (∀ ns il ex pre c cs e, (∀ c2 ∈ pre, ChunkSkippable c2) →
      c.error = some e → e.isEmpty = false →
      response_to_df (.chunks (pre ++ c :: cs)) ns il ex =
        .error (.influxDBBadQuery (toString pre.length ++ ": " ++ e))) := by
  refine ⟨rfl, fun _ _ _ => rfl, fun _ _ _ => rfl, ?_⟩
  intro ns il ex pre c cs e hpre he hne
  show (match decode_chunks (ns :: ex.map some) (il.getD default_inline_labels) 0
      (pre ++ c :: cs) [] with
    | .error e => Except.error e
    | .ok sdfs => _) = _
  rw [decode_chunks_skip _ _ pre (c :: cs) hpre 0 []]
  rw [decode_chunks_error _ _ c cs e he hne]
  simp

/-- C1 witness: the spec's own scenario, a chunk-0 error
"measurement not found: foo", through the amended theorem. -/
theorem C1_witness :
    response_to_df (.chunks [⟨some "measurement not found: foo", none⟩]) none none [] =
      .error (.influxDBBadQuery "0: measurement not found: foo") := by
  have h := C1_decode_error_and_empty.2.2.2 none none [] []
    ⟨some "measurement not found: foo", none⟩ [] "measurement not found: foo"
    (fun c2 hc2 => absurd hc2 (List.not_mem_nil c2)) rfl rfl
  simpa using h

/-- C1 counterexample: on the spec's scenario the decoder raises
InfluxDBSyntaxError "0: measurement not found: foo", which is not the
MeasurementNotFound that the classifier taxonomy (and the claim) assigns to
that text. -/
theorem C1_counterexample :
    response_to_df (.chunks [⟨some "measurement not found: foo", none⟩]) none none [] =
      .error (.influxDBBadQuery "0: measurement not found: foo") ∧
    raise_error "measurement not found: foo" (some 0) 200 =
      .measurementNotFound "200: 0: measurement not found: foo" ∧
    IndbErr.influxDBBadQuery "0: measurement not found: foo" ≠
      IndbErr.measurementNotFound "200: 0: measurement not found: foo" :=
  ⟨rfl, rfl, by decide⟩

/-! ## Emission-shape lemmas (C2, C7, C10) -/

theorem mem_foldr_append {α β : Type} (f : α → List β) (l : List α) (p : β) :
    p ∈ l.foldr (fun i acc => f i ++ acc) [] ↔ ∃ i ∈ l, p ∈ f i := by
  induction l with
  | nil => simp
  | cons a l ih => simp [List.mem_append, ih]

/-- Inversion of the field loop: every emitted point comes from a surviving,
non-underscore, non-time, non-zero cell, is named `ns ++ sensor`, holds the
single field `value`, and carries the row's timestamp and stringified row
tags. -/
theorem mem_rowPoints (ns : String) (subset : List String) (precOut : String)
    (fp : Bool) (tsv : Option Val) (m : Dict) (cells : List (String × Val))
    (p : Point) (hp : p ∈ rowPoints ns subset precOut fp tsv m cells) :
    ∃ sv ∈ cells, sv.1 ≠ "time" ∧ is_null sv.2 true = false ∧
      (startsWithS sv.1 "_" && !subset.contains sv.1) = false ∧
      p.name = ns ++ sv.1 ∧ p.fields = [("value", json_valid sv.2)] ∧
      p.timestamp = point_ts tsv ∧ p.tags = point_tags m := by
  unfold rowPoints at hp
  obtain ⟨sv, hmem, hf⟩ := List.mem_filterMap.mp hp
  refine ⟨sv, hmem, ?_⟩
  by_cases h1 : (sv.1 == "time") = true
  · rw [if_pos h1] at hf; exact absurd hf (by simp)
  · rw [if_neg h1] at hf
    by_cases h2 : is_null sv.2 true = true
    · rw [if_pos h2] at hf; exact absurd hf (by simp)
    · rw [if_neg h2] at hf
      by_cases h3 : (startsWithS sv.1 "_" && !subset.contains sv.1) = true
      · rw [if_pos h3] at hf; exact absurd hf (by simp)
      · rw [if_neg h3] at hf
        obtain rfl := Option.some.inj hf
        exact ⟨by simpa using h1, by simpa using h2, by simpa using h3, rfl, rfl, rfl, rfl⟩

/-- Inversion of a successful encode: the batch's point list is the emission
stage applied to the internal post-factoring state. -/
theorem df_to_indb_ok_points (df : Df) (labels0 : Dict)
    (rp db ns0 : Option String) (subset0 : Option (List String))
    (il0 : Option (List (String × String))) (ts0 : Option Val) (zn : Bool)
    (prec : String) (st fp : Bool) (b : Batch)
    (h : df_to_indb df labels0 rp db ns0 subset0 il0 ts0 zn prec st fp = .ok b) :
    ∃ tsCol, b.points = encode_points (il0.getD default_inline_labels)
      (encode_labels1 labels0 ts0) (subset0.getD []) (norm_ns ns0)
      (to_precision prec) fp
      (encode_prepare (il0.getD default_inline_labels) (norm_ns ns0) df) tsCol := by
  unfold df_to_indb df_to_indb_run at h
  dsimp only at h
  split at h
  · simp at h
  · split at h
    · simp at h
    · split at h
      · simp at h
      · split at h
        · simp at h
        · simp only [Except.ok.injEq] at h
          subst h
          exact ⟨_, rfl⟩

/-- C2 (amended): every point a successful encode emits stems from one single
surviving field cell: its measurement name is the normalised namespace
concatenated with the (already namespace-stripped) column name — there is no
dotted-segment split — and its field map is exactly the one-entry map
{"value": cell}, so fields of one row are never merged into a multi-field
point; no InvalidData failure exists on this path. -/
theorem C2_points_are_single_value_fields (df : Df) (labels0 : Dict)
    (rp db ns0 : Option String) (subset0 : Option (List String))
    (il0 : Option (List (String × String))) (ts0 : Option Val) (zn : Bool)
    (prec : String) (st fp : Bool) (b : Batch)
    (h : df_to_indb df labels0 rp db ns0 subset0 il0 ts0 zn prec st fp = .ok b) :
    ∀ p ∈ b.points, ∃ s v,
      p.name = norm_ns ns0 ++ s ∧
      p.fields = [("value", json_valid v)] ∧
      s ≠ "time" ∧ is_null v true = false ∧
      (startsWithS s "_" && !(subset0.getD []).contains s) = false := by
  intro p hp
  obtain ⟨tsCol, hpts⟩ := df_to_indb_ok_points df labels0 rp db ns0 subset0
    il0 ts0 zn prec st fp b h
  rw [hpts] at hp
  unfold encode_points emitPoints at hp
  obtain ⟨i, _, hrow⟩ := (mem_foldr_append _ _ _).mp hp
  unfold emitRow at hrow
  obtain ⟨sv, _, hnt, hnn, hns, hname, hfields, _, _⟩ := mem_rowPoints _ _ _ _ _ _ _ _ hrow
  exact ⟨sv.1, sv.2, hname, hfields, hnt, hnn, hns⟩

/-- C2 witness: the two-row single-column encode, read back through the
theorem at its first emitted point. -/
theorem C2_witness :
    ∃ s v, ("temp" : String) = norm_ns none ++ s ∧
      [("value", Val.int 20)] = [("value", json_valid v)] ∧
      s ≠ "time" ∧ is_null v true = false ∧
      (startsWithS s "_" && !(List.contains [] s)) = false := by
  have h := C2_points_are_single_value_fields
    ⟨[.dt 0, .dt 2000000], [("temp", [.int 20, .int 21])]⟩ [] none none
    none none none none true "ms" false true
    ⟨[⟨"temp", [("value", .int 20)], some "ms", some (.int 0), none⟩,
      ⟨"temp", [("value", .int 21)], some "ms", some (.int 2), none⟩],
     "ms", none, none, none, none⟩
    rfl ⟨"temp", [("value", .int 20)], some "ms", some (.int 0), none⟩ (by simp)
  exact h

/-- C2 counterexample: one row with columns "m.a" and "m.b" encodes to TWO
points named "m.a" and "m.b", each with the single field "value" — not one
point for measurement "m" with merged fields a and b as the claim's
dotted-split-and-merge resolution would produce. -/
theorem C2_counterexample :
    df_to_indb ⟨[.dt 0], [("m.a", [.int 1]), ("m.b", [.int 2])]⟩ [] none none none none
        none none true "ms" false true =
      .ok ⟨[⟨"m.a", [("value", .int 1)], some "ms", none, none⟩,
            ⟨"m.b", [("value", .int 2)], some "ms", none, none⟩],
           "ms", none, none, some (.int 0), none⟩ ∧
    ("m.a" : String) ≠ "m" ∧ (2 : Nat) ≠ 1 :=
  ⟨rfl, by decide, by decide⟩

/-- C4: with the caller's zero-as-missing policy disabled (zero_null=False)
the encoder still drops a zero-valued field — the per-row field loop
hard-codes `is_null(val, zero_null=True)` — so a table whose only field value
is 0 raises EmptyInput instead of emitting the zero field. `is_null` itself
honours the flag, as the last two conjuncts record. -/
theorem C4_zero_dropped_despite_disabled_policy :
    df_to_indb ⟨[.dt 0], [("temp", [.int 0])]⟩ [] none none none none none none
        false "ms" false true = .error (.emptyData "Empty sensor data") ∧
    is_null (.int 0) false = false ∧ is_null (.int 0) true = true :=
  ⟨rfl, rfl, rfl⟩

/-! ## Dict-preservation lemmas (C9) -/

theorem find_key_map_set (d : Dict) (k2 k : String) (v : Val) (h : k ≠ k2) :
    (d.map (fun kv => if kv.1 == k2 then (k2, v) else kv)).find?
        (fun kv => kv.1 == k) = d.find? (fun kv => kv.1 == k) := by
  induction d with
  | nil => rfl
  | cons a d ih =>
    by_cases ha : (a.1 == k2) = true
    · have ha2 : a.1 = k2 := by simpa using ha
      have hk2 : (k2 == k) = false := by simp [Ne.symm h]
      simp only [List.map_cons, List.find?_cons, ha2, beq_self_eq_true, if_true, hk2]
      exact ih
    · simp only [List.map_cons, if_neg ha, List.find?_cons]
      by_cases hak : (a.1 == k) = true
      · simp [hak]
      · simp only [hak]
        exact ih

theorem dget_dset_ne (d : Dict) (k2 k : String) (v : Val) (h : k ≠ k2) :
    dget (dset d k2 v) k = dget d k := by
  unfold dset dget
  split
  · rw [find_key_map_set d k2 k v h]
  · rw [List.find?_append]
    have h1 : ([(k2, v)].find? (fun kv => kv.1 == k)) = none := by
      simp [List.find?_cons, Ne.symm h]
    rw [h1]
    cases d.find? (fun kv => kv.1 == k) <;> rfl

/-- Tag factoring writes only under the inline labels' public names. -/
theorem factorTags_dget (il : List (String × String)) (k : String)
    (h : ∀ kv ∈ il, kv.2 ≠ k) :
    ∀ df l, dget (factorTags il df l).2 k = dget l k := by
  induction il with
  | nil => intro df l; rfl
  | cons kv il ih =>
    intro df l
    have hih := fun a b => ih (fun kv2 hkv2 => h kv2 (by simp [hkv2])) a b
    show dget ((kv :: il).foldl _ (df, l)).2 k = dget l k
    rw [List.foldl_cons]
    by_cases hc : (df.hasCol kv.1 && !dget_truthy l kv.1) = true
    · by_cases hu : ((df.getColVals kv.1).dedup.length == 1) = true
      · simp only [hc, hu, if_true]
        exact (hih (df.dropCol kv.1)
            (dset l kv.2 ((df.getColVals kv.1).getD 0 .null))).trans
          (dget_dset_ne l kv.2 k _ (Ne.symm (h kv (by simp))))
      · have hu2 : ((df.getColVals kv.1).dedup.length == 1) = false := by simpa using hu
        simp only [hc, hu2, if_true, Bool.false_eq_true, if_false]
        exact hih df l
    · have hc2 : (df.hasCol kv.1 && !dget_truthy l kv.1) = false := by simpa using hc
      simp only [hc2, Bool.false_eq_true, if_false]
      exact hih df l

/-- C9 (amended): the input table is copied (`df.copy()`) and never reaches
the caller mutated, but a non-empty caller labels dict IS mutated in place;
the mutation is confined to the key "time" and the inline labels' public
names — every other entry of the caller's dict is preserved, whatever the
call's outcome. -/
theorem C9_labels_mutation_confined (df : Df) (labels0 : Dict)
    (rp db ns0 : Option String) (subset0 : Option (List String))
    (il0 : Option (List (String × String))) (ts0 : Option Val) (zn : Bool)
    (prec : String) (st fp : Bool) (k : String)
    (hk : k ≠ "time")
    (hil : ∀ kv ∈ il0.getD default_inline_labels, kv.2 ≠ k) :
    dget (df_to_indb_run df labels0 rp db ns0 subset0 il0 ts0 zn prec st fp).2 k =
      dget labels0 k := by
  have hL1 : dget (encode_labels1 labels0 ts0) k = dget labels0 k := by
    unfold encode_labels1
    cases ts0 with
    | none => rfl
    | some t =>
      by_cases ht : truthy t = true
      · simp only [ht, if_true]
        exact dget_dset_ne labels0 "time" k t hk
      · have ht2 : truthy t = false := by simpa using ht
        simp [ht2]
  have hsee : ∀ X : Dict, dget X k = dget labels0 k →
      dget (caller_sees labels0 X) k = dget labels0 k := by
    intro X hX
    unfold caller_sees
    by_cases he : labels0.isEmpty <;> simp [he, hX]
  unfold df_to_indb_run
  dsimp only
  split
  · rfl
  · split
    · exact hsee _ hL1
    · split
      · exact hsee _ hL1
      · split <;>
          exact hsee _ ((factorTags_dget _ k hil _ _).trans hL1)

/-- C9 witness: the preservation theorem at a concrete call that does mutate
the dict (it gains a "time" entry) while key "a" keeps its value. -/
theorem C9_witness :
    dget (df_to_indb_run ⟨[.dt 0], [("temp", [.int 1])]⟩ [("a", .str "b")] none none none
        none none (some (.dt 5)) true "ms" false true).2 "a" =
      dget [("a", .str "b")] "a" :=
  C9_labels_mutation_confined ⟨[.dt 0], [("temp", [.int 1])]⟩ [("a", .str "b")] none none
    none none none (some (.dt 5)) true "ms" false true "a" (by decide)
    (fun kv hkv => by
      simp [default_inline_labels] at hkv
      rcases hkv with h | h | h | h <;> simp [h])

/-- C9 counterexample: the caller's non-empty labels dict {"a": "b"} is
mutated in place by the call (it gains the "time" entry from the ts
argument), so caller-owned options are NOT unchanged. -/
theorem C9_counterexample :
    (df_to_indb_run ⟨[.dt 0], [("temp", [.int 1])]⟩ [("a", .str "b")] none none none
        none none (some (.dt 5)) true "ms" false true).2 =
      [("a", .str "b"), ("time", .dt 5)] ∧
    ([("a", Val.str "b"), ("time", Val.dt 5)] : Dict) ≠ [("a", .str "b")] :=
  ⟨rfl, by decide⟩

/-! ## C10: excluded underscore columns -/

theorem startsWithS_self (s : String) : startsWithS s s = true := by
  unfold startsWithS
  induction s.data with
  | nil => rfl
  | cons c l ih => simp [list_is_pre, ih]

theorem underscore_ne_time (x : String) (hx : startsWithS x "_" = true) :
    (x == "time") = false := by
  cases hxe : x == "time" with
  | false => rfl
  | true =>
    have hxt : x = "time" := by simpa using hxe
    subst hxt
    exact absurd hx (by decide)

/-- Deleting the cells of an excluded underscore column changes no emitted
point: the field loop skips them. -/
theorem rowPoints_ignores_excluded (ns : String) (subset : List String)
    (precOut : String) (fp : Bool) (tsv : Option Val) (m : Dict) (x : String)
    (hx : startsWithS x "_" = true) (hxs : subset.contains x = false) :
    ∀ cells, rowPoints ns subset precOut fp tsv m
        (cells.filter (fun sv => sv.1 != x)) =
      rowPoints ns subset precOut fp tsv m cells := by
  intro cells
  induction cells with
  | nil => rfl
  | cons sv cells ih =>
    by_cases hsx : (sv.1 != x) = true
    · simp only [List.filter_cons, hsx, if_true]
      unfold rowPoints at ih ⊢
      rw [List.filterMap_cons, List.filterMap_cons, ih]
    · have heq : sv.1 = x := by simpa using hsx
      have h1 : (sv.1 == "time") = false := by rw [heq]; exact underscore_ne_time x hx
      have h3 : (startsWithS sv.1 "_" && !subset.contains sv.1) = true := by
        rw [heq, hx, hxs]; rfl
      have hsxf : (sv.1 != x) = false := by simpa using hsx
      simp only [List.filter_cons, hsxf, Bool.false_eq_true, if_false]
      unfold rowPoints at ih ⊢
      rw [List.filterMap_cons]
      by_cases h2 : is_null sv.2 true = true
      · simp only [h1, Bool.false_eq_true, if_false, h2, if_true]
        exact ih
      · have h2f : is_null sv.2 true = false := by simpa using h2
        simp only [h1, h2f, h3, Bool.false_eq_true, if_false, if_true]
        exact ih

/-- Deleting the cells of an excluded underscore column that is no inline
label key changes no row tag either: the tag loop skips them. -/
theorem rowTags_ignores_nonlabel (labels : Dict) (il : List (String × String))
    (subset : List String) (x : String)
    (hx : startsWithS x "_" = true) (hxs : subset.contains x = false)
    (hil : il.any (fun kv => kv.1 == x) = false) :
    ∀ (cells : List (String × Val)) (acc : Dict),
      (cells.filter (fun sv => sv.1 != x)).foldl
      (fun m sv =>
        if is_null sv.2 false then m
        else if startsWithS sv.1 "_" && !subset.contains sv.1 then
          if !(il.any (fun kv => kv.1 == sv.1)) then m
          else
            match dget labels sv.1 with
            | some lv => if lv == sv.2 then m
                else dset m (((il.find? (fun kv => kv.1 == sv.1)).map
                  (fun kv => kv.2)).getD "") sv.2
            | none => dset m (((il.find? (fun kv => kv.1 == sv.1)).map
                (fun kv => kv.2)).getD "") sv.2
        else m) acc =
    cells.foldl
      (fun m sv =>
        if is_null sv.2 false then m
        else if startsWithS sv.1 "_" && !subset.contains sv.1 then
          if !(il.any (fun kv => kv.1 == sv.1)) then m
          else
            match dget labels sv.1 with
            | some lv => if lv == sv.2 then m
                else dset m (((il.find? (fun kv => kv.1 == sv.1)).map
                  (fun kv => kv.2)).getD "") sv.2
            | none => dset m (((il.find? (fun kv => kv.1 == sv.1)).map
                (fun kv => kv.2)).getD "") sv.2
        else m) acc := by
  intro cells
  induction cells with
  | nil => intro acc; rfl
  | cons sv cells ih =>
    intro acc
    by_cases hsx : (sv.1 != x) = true
    · simp only [List.filter_cons, hsx, if_true, List.foldl_cons]
      exact ih _
    · have heq : sv.1 = x := by simpa using hsx
      have hsxf : (sv.1 != x) = false := by simpa using hsx
      have h3 : (startsWithS sv.1 "_" && !subset.contains sv.1) = true := by
        rw [heq, hx, hxs]; rfl
      have h4 : (il.any (fun kv => kv.1 == sv.1)) = false := by rw [heq]; exact hil
      simp only [List.filter_cons, hsxf, Bool.false_eq_true, if_false, List.foldl_cons]
      by_cases h2 : is_null sv.2 false = true
      · simp only [h2, if_true]
        exact ih _
      · have h2f : is_null sv.2 false = false := by simpa using h2
        simp only [h2f, h3, h4, Bool.false_eq_true, if_false, if_true, Bool.not_false]
        exact ih _

/-- C10: a column whose (post-rename) name starts with an underscore and is
covered by no subset prefix contributes no field to any emitted point — the
emission is unchanged if its cells are deleted — and if it is additionally
not an inline-label key it contributes no row tag either, silently. -/
theorem C10_underscore_cols_contribute_nothing (ns : String)
    (subset : List String) (precOut : String) (fp : Bool)
    (tsv : Option Val) (m labels : Dict) (il : List (String × String))
    (x : String) (cells : List (String × Val))
    (hx : startsWithS x "_" = true)
    (hsub : ∀ p ∈ subset, startsWithS x p = false) :
    rowPoints ns subset precOut fp tsv m (cells.filter (fun sv => sv.1 != x)) =
      rowPoints ns subset precOut fp tsv m cells ∧
    (il.any (fun kv => kv.1 == x) = false →
      rowTags labels il subset (cells.filter (fun sv => sv.1 != x)) =
        rowTags labels il subset cells) := by
  have hxs : subset.contains x = false := by
    cases hc : subset.contains x with
    | false => rfl
    | true =>
      have hmem : x ∈ subset := by simpa using hc
      exact absurd (startsWithS_self x) (by simp [hsub x hmem])
  refine ⟨rowPoints_ignores_excluded ns subset precOut fp tsv m x hx hxs cells, ?_⟩
  intro hil
  exact rowTags_ignores_nonlabel labels il subset x hx hxs hil cells []

/-- C10 witness: a concrete row whose "_x" cell (not a subset member, not an
inline-label key) adds nothing to the emission. -/
theorem C10_witness :
    (rowPoints "" [] "ms" true (some (.int 0)) []
        (([("_x", Val.str "A"), ("temp", Val.int 1)]).filter (fun sv => sv.1 != "_x")) =
      rowPoints "" [] "ms" true (some (.int 0)) []
        [("_x", Val.str "A"), ("temp", Val.int 1)]) ∧
    (default_inline_labels.any (fun kv => kv.1 == "_x") = false →
      rowTags [] default_inline_labels []
          (([("_x", Val.str "A"), ("temp", Val.int 1)]).filter (fun sv => sv.1 != "_x")) =
        rowTags [] default_inline_labels [] [("_x", Val.str "A"), ("temp", Val.int 1)]) :=
  C10_underscore_cols_contribute_nothing "" [] "ms" true (some (.int 0)) [] []
    default_inline_labels "_x" [("_x", .str "A"), ("temp", .int 1)] (by decide)
    (fun p hp => absurd hp (List.not_mem_nil p))


/-! ## C8: EmptyInput characterisation -/


theorem render_ts_error (st : Bool) (prec : String) (ts : List (Option Int))
    (e : IndbErr) (h : render_ts st prec ts = .error e) : e = .npFault := by
  unfold render_ts at h
  split at h
  · simp at h
  · split at h
    · exact (Except.error.inj h).symm
    · split at h
      · simp at h
      · exact (Except.error.inj h).symm

theorem get_ts_error (labels : Dict) (st : Bool) (prec : String) (df : Df)
    (e : IndbErr) (h : get_ts labels st prec df = .error e) : e = .npFault := by
  unfold get_ts at h
  split at h
  · cases hr : render_ts st prec _ with
    | ok a => rw [hr] at h; simp [Except.map] at h
    | error e2 =>
      rw [hr] at h
      simp only [Except.map] at h
      obtain rfl := (Except.error.inj h).symm
      exact render_ts_error _ _ _ _ hr
  · split at h
    · split at h
      · cases hr : render_ts st prec _ with
        | ok a => rw [hr] at h; simp [Except.map] at h
        | error e2 =>
          rw [hr] at h
          simp only [Except.map] at h
          obtain rfl := (Except.error.inj h).symm
          exact render_ts_error _ _ _ _ hr
      · split at h
        · cases hr : render_ts st prec _ with
          | ok a => rw [hr] at h; simp [Except.map] at h
          | error e2 =>
            rw [hr] at h
            simp only [Except.map] at h
            obtain rfl := (Except.error.inj h).symm
            exact render_ts_error _ _ _ _ hr
        · exact (Except.error.inj h).symm
    · split at h
      · simp at h
      · simp at h
      · exact (Except.error.inj h).symm



/-- C8: the encoder raises EmptyInput exactly when the input table is empty,
or becomes empty after dropping all-null columns and rows, or (the timestamp
derivation succeeding) the final emitted point list is empty; in particular
the spec's scenario — every row's only field value is 0 under the
zero-as-missing policy — raises EmptyInput. -/
theorem C8_emptyInput_iff :
    (∀ (df : Df) (labels0 : Dict) (rp db ns0 : Option String)
        (subset0 : Option (List String)) (il0 : Option (List (String × String)))
        (ts0 : Option Val) (zn : Bool) (prec : String) (st fp : Bool),
      df_to_indb df labels0 rp db ns0 subset0 il0 ts0 zn prec st fp =
          .error (.emptyData "Empty sensor data") ↔
        (df.index.length = 0 ∨
         (encode_prepare (il0.getD default_inline_labels) (norm_ns ns0) df).index.length = 0 ∨
         (∃ tsCol, get_ts (encode_labels1 labels0 ts0) st prec
              (encode_prepare (il0.getD default_inline_labels) (norm_ns ns0) df) =
                .ok tsCol ∧
            encode_points (il0.getD default_inline_labels) (encode_labels1 labels0 ts0)
              (subset0.getD []) (norm_ns ns0) (to_precision prec) fp
              (encode_prepare (il0.getD default_inline_labels) (norm_ns ns0) df) tsCol = []))) ∧
    df_to_indb ⟨[.dt 0, .dt 1000000], [("temp", [.int 0, .int 0])]⟩ [] none none none
      none none none true "ms" false true = .error (.emptyData "Empty sensor data") := by
  constructor
  · intro df labels0 rp db ns0 subset0 il0 ts0 zn prec st fp
    unfold df_to_indb df_to_indb_run
    dsimp only
    by_cases h0 : (df.index.length == 0) = true
    · have h0n : df.index.length = 0 := by simpa using h0
      simp [h0, h0n]
    · have h0n : ¬df.index.length = 0 := by simpa using h0
      simp only [h0, Bool.false_eq_true, if_false]
      by_cases h1 : ((encode_prepare (il0.getD default_inline_labels) (norm_ns ns0)
          df).index.length == 0) = true
      · have h1n : (encode_prepare (il0.getD default_inline_labels) (norm_ns ns0)
            df).index.length = 0 := by simpa using h1
        simp [h1, h1n]
      · have h1n : ¬(encode_prepare (il0.getD default_inline_labels) (norm_ns ns0)
            df).index.length = 0 := by simpa using h1
        simp only [h1, Bool.false_eq_true, if_false]
        cases hge : get_ts (encode_labels1 labels0 ts0) st prec
            (encode_prepare (il0.getD default_inline_labels) (norm_ns ns0) df) with
        | error e =>
          have he : e = .npFault := get_ts_error _ _ _ _ _ hge
          subst he
          simp [h0n, h1n, hge]
        | ok tsCol =>
          by_cases hpe : (encode_points (il0.getD default_inline_labels)
              (encode_labels1 labels0 ts0) (subset0.getD []) (norm_ns ns0)
              (to_precision prec) fp
              (encode_prepare (il0.getD default_inline_labels) (norm_ns ns0) df)
              tsCol).isEmpty = true
          · have hpn := List.isEmpty_iff.mp hpe
            simp [hge, hpe, h0n, h1n, hpn]
          · have hpn : ¬(encode_points (il0.getD default_inline_labels)
                (encode_labels1 labels0 ts0) (subset0.getD []) (norm_ns ns0)
                (to_precision prec) fp
                (encode_prepare (il0.getD default_inline_labels) (norm_ns ns0) df)
                tsCol) = [] := by
              intro hc
              rw [hc] at hpe
              exact hpe rfl
            simp only [hge, hpe, Bool.false_eq_true, if_false]
            constructor
            · intro hc
              exact absurd hc (by simp)
            · rintro (hc | hc | ⟨tsCol2, hg2, hc⟩)
              · exact absurd hc h0n
              · exact absurd hc h1n
              · obtain rfl := Except.ok.inj hg2
                exact absurd hc hpn
  · rfl


/-! ## C7: batch-level factoring invariant -/


theorem dset_mem_key (l : Dict) (k : String) (v : Val) :
    ∀ e ∈ dset l k v, e.1 = k ∨ e ∈ l := by
  intro e he
  unfold dset at he
  split at he
  · obtain ⟨kv0, hkv0, hf⟩ := List.mem_map.mp he
    by_cases hk : (kv0.1 == k) = true
    · rw [if_pos hk] at hf
      left
      rw [← hf]
    · rw [if_neg hk] at hf
      right
      rw [← hf]
      exact hkv0
  · rcases List.mem_append.mp he with h | h
    · right; exact h
    · left
      have : e = (k, v) := by simpa using h
      rw [this]

theorem hasCol_dropCol_self (df : Df) (n : String) :
    (df.dropCol n).hasCol n = false := by
  unfold Df.dropCol Df.hasCol
  rw [List.any_eq_false]
  intro c hc
  have := (List.mem_filter.mp hc).2
  simpa using this

theorem hasCol_dropCol_mono (df : Df) (n a : String) (h : df.hasCol a = false) :
    (df.dropCol n).hasCol a = false := by
  unfold Df.dropCol Df.hasCol
  unfold Df.hasCol at h
  rw [List.any_eq_false] at h ⊢
  intro c hc
  exact h c (List.mem_filter.mp hc).1

theorem factorTags_cons (kv : String × String) (il : List (String × String))
    (df : Df) (l : Dict) :
    factorTags (kv :: il) df l =
      if df.hasCol kv.1 && !dget_truthy l kv.1 then
        if (df.getColVals kv.1).dedup.length == 1 then
          factorTags il (df.dropCol kv.1)
            (dset l kv.2 ((df.getColVals kv.1).getD 0 .null))
        else factorTags il df l
      else factorTags il df l := by
  show (kv :: il).foldl _ (df, l) = _
  rw [List.foldl_cons]
  by_cases h1 : (df.hasCol kv.1 && !dget_truthy l kv.1) = true
  · by_cases h2 : ((df.getColVals kv.1).dedup.length == 1) = true
    · simp only [h1, h2, if_true]
      rfl
    · have h2f : ((df.getColVals kv.1).dedup.length == 1) = false := by simpa using h2
      simp only [h1, h2f, if_true, Bool.false_eq_true, if_false]
      rfl
  · have h1f : (df.hasCol kv.1 && !dget_truthy l kv.1) = false := by simpa using h1
    simp only [h1f, Bool.false_eq_true, if_false]
    rfl

/-- Every entry the tag-factoring loop leaves in the labels dict (starting
from entries already backed by absent columns) is keyed by the public name of
an inline label whose column is absent from the factored table. -/
theorem factorTags_inv (FULL : List (String × String)) :
    ∀ (il : List (String × String)), (∀ kv ∈ il, kv ∈ FULL) →
    ∀ (df : Df) (l : Dict), (∀ e ∈ l, ∃ a, (a, e.1) ∈ FULL ∧ df.hasCol a = false) →
    ∀ e ∈ (factorTags il df l).2,
      ∃ a, (a, e.1) ∈ FULL ∧ (factorTags il df l).1.hasCol a = false := by
  intro il
  induction il with
  | nil => intro _ df l hinit e he; exact hinit e he
  | cons kv il ih =>
    intro hsub df l hinit e he
    have hsub2 : ∀ kv2 ∈ il, kv2 ∈ FULL := fun kv2 h2 => hsub kv2 (by simp [h2])
    rw [factorTags_cons] at he ⊢
    by_cases h1 : (df.hasCol kv.1 && !dget_truthy l kv.1) = true
    · by_cases h2 : ((df.getColVals kv.1).dedup.length == 1) = true
      · simp only [h1, h2, if_true] at he ⊢
        refine ih hsub2 _ _ ?_ e he
        intro e2 he2
        rcases dset_mem_key l kv.2 _ e2 he2 with hk | hmem
        · exact ⟨kv.1, by rw [hk, Prod.mk.eta]; exact hsub kv (by simp),
            hasCol_dropCol_self df kv.1⟩
        · obtain ⟨a, hm, hcol⟩ := hinit e2 hmem
          exact ⟨a, hm, hasCol_dropCol_mono df kv.1 a hcol⟩
      · have h2f : ((df.getColVals kv.1).dedup.length == 1) = false := by simpa using h2
        simp only [h1, h2f, if_true, Bool.false_eq_true, if_false] at he ⊢
        exact ih hsub2 df l hinit e he
    · have h1f : (df.hasCol kv.1 && !dget_truthy l kv.1) = false := by simpa using h1
      simp only [h1f, Bool.false_eq_true, if_false] at he ⊢
      exact ih hsub2 df l hinit e he



/-- Every row-tag entry is keyed by the public name of an inline label whose
internal key names one of the row's cells. -/
theorem rowTags_key_origin (labels : Dict) (il : List (String × String))
    (subset : List String) (Q : String → Prop) :
    ∀ (cells : List (String × Val)), (∀ sv ∈ cells, Q sv.1) →
    ∀ (acc : Dict), (∀ e ∈ acc, ∃ s, (s, e.1) ∈ il ∧ Q s) →
    ∀ e ∈ cells.foldl
      (fun m sv =>
        if is_null sv.2 false then m
        else if startsWithS sv.1 "_" && !subset.contains sv.1 then
          if !(il.any (fun kv => kv.1 == sv.1)) then m
          else
            match dget labels sv.1 with
            | some lv => if lv == sv.2 then m
                else dset m (((il.find? (fun kv => kv.1 == sv.1)).map
                  (fun kv => kv.2)).getD "") sv.2
            | none => dset m (((il.find? (fun kv => kv.1 == sv.1)).map
                (fun kv => kv.2)).getD "") sv.2
        else m) acc,
      ∃ s, (s, e.1) ∈ il ∧ Q s := by
  intro cells
  induction cells with
  | nil => intro _ acc hacc e he; exact hacc e he
  | cons sv cells ih =>
    intro hq acc hacc e he
    have hq2 : ∀ sv2 ∈ cells, Q sv2.1 := fun sv2 h2 => hq sv2 (by simp [h2])
    rw [List.foldl_cons] at he
    refine ih hq2 _ ?_ e he
    intro e2 he2
    -- the step either keeps acc or dsets under an inline-label public name
    by_cases hn : is_null sv.2 false = true
    · rw [if_pos hn] at he2
      exact hacc e2 he2
    · rw [if_neg hn] at he2
      by_cases hu : (startsWithS sv.1 "_" && !subset.contains sv.1) = true
      · rw [if_pos hu] at he2
        by_cases hany : (il.any (fun kv => kv.1 == sv.1)) = true
        · have hnotf : (!(il.any (fun kv => kv.1 == sv.1))) = false := by simp [hany]
          rw [hnotf] at he2
          simp only [Bool.false_eq_true, if_false] at he2
          cases hf : il.find? (fun kv => kv.1 == sv.1) with
          | none =>
            rw [List.find?_eq_none] at hf
            rw [List.any_eq_true] at hany
            obtain ⟨kv0, hkv0, hp⟩ := hany
            exact absurd hp (hf kv0 hkv0)
          | some kv0 =>
            have hkey : kv0.1 = sv.1 := by simpa using List.find?_some hf
            have hmem0 : kv0 ∈ il := List.mem_of_find?_eq_some hf
            have hdset : ∀ e3 ∈ dset acc (((il.find? (fun kv => kv.1 == sv.1)).map
                (fun kv => kv.2)).getD "") sv.2, ∃ s, (s, e3.1) ∈ il ∧ Q s := by
              intro e3 he3
              rw [hf] at he3
              rcases dset_mem_key acc kv0.2 sv.2 e3 (by simpa using he3) with hk | hm
              · refine ⟨kv0.1, ?_, ?_⟩
                · rw [hk, Prod.mk.eta]; exact hmem0
                · rw [hkey]; exact hq sv (by simp)
              · exact hacc e3 hm
            split at he2
            · next lv heq =>
              split at he2
              · exact hacc e2 he2
              · exact hdset e2 (by rw [hf] at he2 ⊢; exact he2)
            · exact hdset e2 (by rw [hf] at he2 ⊢; exact he2)
        · have hanyf : (il.any (fun kv => kv.1 == sv.1)) = false := Bool.eq_false_iff.mpr hany
          rw [hanyf] at he2
          simp only [Bool.not_false, if_true] at he2
          exact hacc e2 he2
      · rw [if_neg hu] at he2
        exact hacc e2 he2



theorem mem_rowCells_hasCol (df : Df) (i : Nat) (sv : String × Val)
    (h : sv ∈ df.rowCells i) : df.hasCol sv.1 = true := by
  unfold Df.rowCells at h
  obtain ⟨c, hc, hf⟩ := List.mem_map.mp h
  unfold Df.hasCol
  rw [List.any_eq_true]
  refine ⟨c, hc, ?_⟩
  rw [← hf]
  simp

theorem nodup_values_eq (il : List (String × String))
    (h : (il.map (fun kv => kv.2)).Nodup) (a s k : String)
    (ha : (a, k) ∈ il) (hs : (s, k) ∈ il) : a = s := by
  induction il with
  | nil => cases ha
  | cons kv il ih =>
    rw [List.map_cons, List.nodup_cons] at h
    obtain ⟨hnot, h2⟩ := h
    rcases List.mem_cons.mp ha with ha1 | ha1 <;> rcases List.mem_cons.mp hs with hs1 | hs1
    · have := ha1.trans hs1.symm
      exact (Prod.mk.injEq a k s k).mp this |>.1
    · exfalso
      apply hnot
      have hk : kv.2 = k := by rw [← ha1]
      rw [hk]
      exact List.mem_map.mpr ⟨(s, k), hs1, rfl⟩
    · exfalso
      apply hnot
      have hk : kv.2 = k := by rw [← hs1]
      rw [hk]
      exact List.mem_map.mpr ⟨(a, k), ha1, rfl⟩
    · exact ih h2 ha1 hs1

theorem point_tags_some (m : Dict) (ptags : List (String × String))
    (h : point_tags m = some ptags) :
    ptags = m.map (fun kv => (kv.1, py_str kv.2)) := by
  unfold point_tags at h
  split at h
  · exact absurd h (by simp)
  · exact (Option.some.inj h).symm

/-- Full inversion of a successful encode: every component of the batch in
terms of the internal factoring state. -/
theorem df_to_indb_ok_inv (df : Df) (labels0 : Dict)
    (rp db ns0 : Option String) (subset0 : Option (List String))
    (il0 : Option (List (String × String))) (ts0 : Option Val) (zn : Bool)
    (prec : String) (st fp : Bool) (b : Batch)
    (h : df_to_indb df labels0 rp db ns0 subset0 il0 ts0 zn prec st fp = .ok b) :
    ∃ tsCol,
      get_ts (encode_labels1 labels0 ts0) st prec
          (encode_prepare (il0.getD default_inline_labels) (norm_ns ns0) df) =
        .ok tsCol ∧
      b.points = encode_points (il0.getD default_inline_labels)
        (encode_labels1 labels0 ts0) (subset0.getD []) (norm_ns ns0)
        (to_precision prec) fp
        (encode_prepare (il0.getD default_inline_labels) (norm_ns ns0) df) tsCol ∧
      b.tags = (if ((factorTags (il0.getD default_inline_labels)
            (with_time_col (encode_prepare (il0.getD default_inline_labels)
              (norm_ns ns0) df) tsCol)
            (encode_labels1 labels0 ts0)).2).isEmpty then none
        else some (((factorTags (il0.getD default_inline_labels)
            (with_time_col (encode_prepare (il0.getD default_inline_labels)
              (norm_ns ns0) df) tsCol)
            (encode_labels1 labels0 ts0)).2).map (fun kv => (kv.1, py_str kv.2)))) ∧
      b.timestamp = (if ((((factorTags (il0.getD default_inline_labels)
            (with_time_col (encode_prepare (il0.getD default_inline_labels)
              (norm_ns ns0) df) tsCol)
            (encode_labels1 labels0 ts0)).1.getColVals "time").dedup.length == 1) &&
          !is_null (((factorTags (il0.getD default_inline_labels)
            (with_time_col (encode_prepare (il0.getD default_inline_labels)
              (norm_ns ns0) df) tsCol)
            (encode_labels1 labels0 ts0)).1.getColVals "time").getD 0 .null) false)
        then some (((factorTags (il0.getD default_inline_labels)
            (with_time_col (encode_prepare (il0.getD default_inline_labels)
              (norm_ns ns0) df) tsCol)
            (encode_labels1 labels0 ts0)).1.getColVals "time").getD 0 .null)
        else none) := by
  unfold df_to_indb df_to_indb_run at h
  dsimp only at h
  split at h
  · simp at h
  · split at h
    · simp at h
    · split at h
      · simp at h
      · split at h
        · simp at h
        · simp only [Except.ok.injEq] at h
          subst h
          exact ⟨_, by assumption, rfl, rfl, rfl⟩



/-- C7 (amended): with no caller-supplied labels and no default timestamp,
and inline labels with pairwise-distinct public names, nothing the batch
carries at batch level is duplicated per point: no emitted point carries a
tag key present in the batch-level tag map (the factored column was dropped),
and if a batch-level timestamp was factored out no point carries a timestamp.
(The promotion condition itself consults the caller's labels under the
INTERNAL alias key, not the public tag key — see the counterexample.) -/
theorem C7_factored_tags_not_duplicated (df : Df) (rp db ns0 : Option String)
    (subset0 : Option (List String)) (il0 : Option (List (String × String)))
    (zn : Bool) (prec : String) (st fp : Bool) (b : Batch)
    (hnodup : ((il0.getD default_inline_labels).map (fun kv => kv.2)).Nodup)
    (h : df_to_indb df [] rp db ns0 subset0 il0 none zn prec st fp = .ok b) :
    (∀ tags, b.tags = some tags → ∀ e ∈ tags, ∀ p ∈ b.points, ∀ ptags,
      p.tags = some ptags → ∀ v2, (e.1, v2) ∉ ptags) ∧
    (b.timestamp.isSome = true → ∀ p ∈ b.points, p.timestamp = none) := by
  obtain ⟨tsCol, hget, hpts, htags, hts⟩ := df_to_indb_ok_inv df [] rp db ns0 subset0
    il0 none zn prec st fp b h
  have hL1 : encode_labels1 [] none = ([] : Dict) := rfl
  rw [hL1] at hpts htags hts
  unfold encode_points at hpts
  have hDF2 : encode_emit_df (il0.getD default_inline_labels) []
      (encode_prepare (il0.getD default_inline_labels) (norm_ns ns0) df) tsCol =
      if ((factorTags (il0.getD default_inline_labels)
          (with_time_col (encode_prepare (il0.getD default_inline_labels)
            (norm_ns ns0) df) tsCol) []).1.getColVals "time").dedup.length == 1
      then (factorTags (il0.getD default_inline_labels)
          (with_time_col (encode_prepare (il0.getD default_inline_labels)
            (norm_ns ns0) df) tsCol) []).1.dropCol "time"
      else (factorTags (il0.getD default_inline_labels)
          (with_time_col (encode_prepare (il0.getD default_inline_labels)
            (norm_ns ns0) df) tsCol) []).1 := rfl
  rw [hDF2] at hpts
  set IL := il0.getD default_inline_labels with hIL
  set F := factorTags IL (with_time_col (encode_prepare IL (norm_ns ns0) df) tsCol) []
    with hFdef
  have hkeys : ∀ e ∈ F.2, ∃ a, (a, e.1) ∈ IL ∧ F.1.hasCol a = false := by
    intro e he
    exact factorTags_inv IL IL (fun kv hk => hk) _ []
      (fun e2 he2 => absurd he2 (List.not_mem_nil e2)) e he
  constructor
  · intro tags htags_eq e hetag p hp ptags hptags v2 hmemtag
    rw [htags] at htags_eq
    by_cases hE : (F.2).isEmpty = true
    · rw [if_pos hE] at htags_eq
      exact absurd htags_eq (by simp)
    · rw [if_neg hE] at htags_eq
      have htags2 : tags = F.2.map (fun kv => (kv.1, py_str kv.2)) :=
        (Option.some.inj htags_eq).symm
      subst htags2
      obtain ⟨kv, hkvF, hkv_eq⟩ := List.mem_map.mp hetag
      have hekey : e.1 = kv.1 := by rw [← hkv_eq]
      obtain ⟨a, haIL, hacol⟩ := hkeys kv hkvF
      rw [hpts] at hp
      unfold emitPoints at hp
      obtain ⟨i, _, hrow⟩ := (mem_foldr_append _ _ _).mp hp
      unfold emitRow at hrow
      obtain ⟨sv, hsvmem, _, _, _, _, _, _, hptags_shape⟩ :=
        mem_rowPoints _ _ _ _ _ _ _ _ hrow
      rw [hptags_shape] at hptags
      have hptags2 := point_tags_some _ _ hptags
      subst hptags2
      obtain ⟨kv2, hkv2mem, hkv2eq⟩ := List.mem_map.mp hmemtag
      have hkey2 : kv2.1 = e.1 := by
        have h5 := congrArg Prod.fst hkv2eq
        simp at h5
        exact h5
      have horigin := rowTags_key_origin F.2 IL (subset0.getD [])
        (fun s => (if ((F.1.getColVals "time").dedup.length == 1)
            then F.1.dropCol "time" else F.1).hasCol s = true)
        _ (fun sv2 hsv2 => mem_rowCells_hasCol _ i sv2 (List.mem_filter.mp hsv2).1)
        [] (fun e3 he3 => absurd he3 (List.not_mem_nil e3)) kv2 hkv2mem
      obtain ⟨s, hsIL, hscol⟩ := horigin
      have has : a = s := by
        apply nodup_values_eq IL hnodup a s kv.1 haIL
        rw [← hekey, ← hkey2]
        exact hsIL
      have hDFa : (if ((F.1.getColVals "time").dedup.length == 1)
          then F.1.dropCol "time" else F.1).hasCol a = false := by
        split
        · exact hasCol_dropCol_mono _ _ _ hacol
        · exact hacol
      rw [has] at hDFa
      rw [hDFa] at hscol
      exact absurd hscol (by simp)
  · intro hbts p hp
    rw [hts] at hbts
    by_cases hcond : (((F.1.getColVals "time").dedup.length == 1) &&
        !is_null ((F.1.getColVals "time").getD 0 .null) false) = true
    · have hshared : ((F.1.getColVals "time").dedup.length == 1) = true := by
        have h6 := hcond
        rw [Bool.and_eq_true] at h6
        exact h6.1
      rw [if_pos hshared] at hpts
      rw [hpts] at hp
      unfold emitPoints at hp
      obtain ⟨i, _, hrow⟩ := (mem_foldr_append _ _ _).mp hp
      unfold emitRow at hrow
      obtain ⟨sv, hsvmem, _, _, _, _, _, hpts_ts, _⟩ :=
        mem_rowPoints _ _ _ _ _ _ _ _ hrow
      have hfind : (((F.1.dropCol "time").rowCells i).filter
          (fun sv => !is_null sv.2 false)).find? (fun sv => sv.1 == "time") = none := by
        rw [List.find?_eq_none]
        intro sv2 hsv2
        have h1 := (List.mem_filter.mp hsv2).1
        have h2 := mem_rowCells_hasCol _ i sv2 h1
        intro hbeq
        have hsvt : sv2.1 = "time" := by simpa using hbeq
        rw [hsvt] at h2
        rw [hasCol_dropCol_self] at h2
        exact absurd h2 (by simp)
      rw [hfind] at hpts_ts
      simpa [point_ts] using hpts_ts
    · have hcondf := Bool.eq_false_iff.mpr hcond
      rw [hcondf] at hbts
      simp at hbts

/-- C7 witness: a table with a constant `_pk` column (factored to the batch
tag map) and a varying `_loc` column (per-point tags): the theorem instance
shows no point carries the factored "pk" key and the batch timestamp is
absent. -/
theorem C7_witness :
    (∀ tags, (some [("pk", "A")] : Option (List (String × String))) = some tags →
      ∀ e ∈ tags, ∀ p ∈
        [(⟨"temp", [("value", .int 1)], some "ms", some (.int 0), some [("loc", "NY")]⟩ : Point),
         ⟨"temp", [("value", .int 2)], some "ms", some (.int 1), some [("loc", "LA")]⟩],
        ∀ ptags, p.tags = some ptags → ∀ v2, (e.1, v2) ∉ ptags) ∧
    ((none : Option Val).isSome = true → ∀ p ∈
        [(⟨"temp", [("value", .int 1)], some "ms", some (.int 0), some [("loc", "NY")]⟩ : Point),
         ⟨"temp", [("value", .int 2)], some "ms", some (.int 1), some [("loc", "LA")]⟩],
        p.timestamp = none) :=
  C7_factored_tags_not_duplicated
    ⟨[.dt 0, .dt 1000000],
     [("temp", [.int 1, .int 2]), ("_pk", [.str "A", .str "A"]),
      ("_loc", [.str "NY", .str "LA"])]⟩
    none none none none none true "ms" false true
    ⟨[⟨"temp", [("value", .int 1)], some "ms", some (.int 0), some [("loc", "NY")]⟩,
      ⟨"temp", [("value", .int 2)], some "ms", some (.int 1), some [("loc", "LA")]⟩],
     "ms", none, none, none, some [("pk", "A")]⟩
    (by decide) rfl

/-- C7 counterexample: a caller-supplied label under the PUBLIC key
("pk" = "X") does not pin the key — the constant `_pk` column is still
promoted and silently overwrites the caller's value with "A", contrary to the
claim's "no caller-supplied label already pins that key" condition. -/
theorem C7_counterexample :
    df_to_indb
        ⟨[.dt 0, .dt 1000000], [("temp", [.int 1, .int 2]), ("_pk", [.str "A", .str "A"])]⟩
        [("pk", .str "X")] none none none none none none true "ms" false true =
      .ok ⟨[⟨"temp", [("value", .int 1)], some "ms", some (.int 0), none⟩,
            ⟨"temp", [("value", .int 2)], some "ms", some (.int 1), none⟩],
           "ms", none, none, none, some [("pk", "A")]⟩ ∧
    (some [("pk", "A")] : Option (List (String × String))) ≠ some [("pk", "X")] :=
  ⟨rfl, by decide⟩

end IndbSpec

namespace IndbSpec

theorem map_getD_range {α : Type} (l : List α) (d : α) :
    (List.range l.length).map (fun i => l.getD i d) = l := by
  induction l with
  | nil => rfl
  | cons a t ih =>
    rw [List.length_cons, List.range_succ_eq_map, List.map_cons, List.map_map]
    have h1 : ((fun i => (a :: t).getD i d) ∘ Nat.succ) = (fun i => t.getD i d) := by
      funext i
      rfl
    rw [h1, ih]
    rfl

theorem traverseDt_map_dt (l : List Int) :
    traverseDt np_dt64 (l.map Val.dt) = some (l.map some) := by
  induction l with
  | nil => rfl
  | cons a t ih =>
    rw [List.map_cons, List.map_cons]
    show (traverseDt np_dt64 (t.map Val.dt)).map _ = _
    rw [ih]
    rfl

theorem fix_special_id (il : List (String × String)) (s : String)
    (h1 : ∀ kv ∈ il, kv.2 ≠ s) (h2 : s ≠ "time") : fix_special il s = s := by
  unfold fix_special
  have hf1 : il.find? (fun kv => kv.2 == s) = none := by
    rw [List.find?_eq_none]
    intro kv hkv
    simp [h1 kv hkv]
  have hf2 : special_labels.find? (fun kv => kv.2 == s) = none := by
    rw [List.find?_eq_none]
    intro kv hkv
    simp only [special_labels, List.mem_singleton] at hkv
    subst hkv
    simp [Ne.symm h2]
  rw [hf1, hf2]

theorem factorTags_id (il : List (String × String)) (df : Df) (l : Dict)
    (h : ∀ kv ∈ il, df.hasCol kv.1 = false) : factorTags il df l = (df, l) := by
  induction il with
  | nil => rfl
  | cons kv il ih =>
    rw [factorTags_cons]
    rw [h kv (by simp)]
    simp only [Bool.false_and, Bool.false_eq_true, if_false]
    exact ih (fun kv2 h2 => h kv2 (by simp [h2]))

theorem foldr_rows_map {α : Type} (l : List Nat) (f : Nat → List α) (g : Nat → α)
    (h : ∀ i ∈ l, f i = [g i]) :
    l.foldr (fun i acc => f i ++ acc) [] = l.map g := by
  induction l with
  | nil => rfl
  | cons a t ih =>
    rw [List.foldr_cons, List.map_cons, h a (by simp),
      ih (fun i hi => h i (by simp [hi]))]
    rfl

theorem const_map_dedup {α β : Type} [DecidableEq β] (l : List α) (b : β)
    (h : l ≠ []) : (l.map (fun _ => b)).dedup = [b] := by
  induction l with
  | nil => exact absurd rfl h
  | cons a t ih =>
    rw [List.map_cons]
    cases t with
    | nil => rfl
    | cons a2 t2 =>
      rw [List.dedup_cons_of_mem (by simp), ih (by simp)]

theorem sortRows_sorted (rows : List (Val × List Val))
    (h : rows.Pairwise (fun a b => valLe b.1 a.1 = false)) :
    sortRows rows = rows := by
  induction rows with
  | nil => rfl
  | cons r t ih =>
    rw [List.pairwise_cons] at h
    obtain ⟨h1, h2⟩ := h
    rw [sortRows, ih h2]
    cases t with
    | nil => rfl
    | cons x t2 =>
      rw [insertRow, h1 x (by simp)]
      simp

end IndbSpec

namespace IndbSpec

theorem getD_map {α β : Type} (f : α → β) (d : β) (d2 : α) :
    ∀ (l : List α) (i : Nat), i < l.length → (l.map f).getD i d = f (l.getD i d2)
  | a :: t, 0, _ => rfl
  | a :: t, i + 1, h => by
    show (t.map f).getD i d = f (t.getD i d2)
    exact getD_map f d d2 t i (by simpa using h)

theorem getD_mem {α : Type} : ∀ (l : List α) (i : Nat) (d : α), i < l.length →
    l.getD i d ∈ l
  | a :: t, 0, d, _ => by
    show a ∈ a :: t
    simp
  | a :: t, i + 1, d, h => by
    show t.getD i d ∈ a :: t
    exact List.mem_cons_of_mem a (getD_mem t i d (by simpa using h))

theorem prepare_id (c : String) (ts : List Int) (vals : List Val)
    (hlen : vals.length = ts.length) (h2 : 2 ≤ ts.length)
    (hc2 : c ≠ "time")
    (hc4 : ∀ kv ∈ default_inline_labels, kv.2 ≠ c)
    (hvals : ∀ v ∈ vals, ∃ k, v = Val.int k ∧ k ≠ 0) :
    encode_prepare default_inline_labels (norm_ns none) ⟨ts.map Val.dt, [(c, vals)]⟩ =
      ⟨ts.map Val.dt, [(c, vals)]⟩ := by
  have hvnil : vals ≠ [] := by
    intro h
    rw [h] at hlen
    simp at hlen
    omega
  unfold encode_prepare
  have hfix : fix_special default_inline_labels c = c := fix_special_id _ _ hc4 hc2
  have hr : (Df.renameCols ⟨ts.map Val.dt, [(c, vals)]⟩ (fix_special default_inline_labels)) =
      ⟨ts.map Val.dt, [(c, vals)]⟩ := by
    simp [Df.renameCols, hfix]
  rw [hr]
  have hgp : get_parts (norm_ns none) = [] := rfl
  rw [hgp]
  simp only [List.isEmpty_nil, if_true]
  have hall : (vals.all (fun v => is_null v false)) = false := by
    cases vals with
    | nil => exact absurd rfl hvnil
    | cons v0 rest =>
      obtain ⟨k, hk, _⟩ := hvals v0 (by simp)
      rw [List.all_cons, hk]
      rfl
  have hdc : Df.dropAllNullCols ⟨ts.map Val.dt, [(c, vals)]⟩ = ⟨ts.map Val.dt, [(c, vals)]⟩ := by
    simp [Df.dropAllNullCols, hall]
  rw [hdc]
  unfold Df.dropAllNullRows
  have hl1 : (ts.map Val.dt : List Val).length = ts.length := by simp
  have hpred : ∀ i ∈ List.range (ts.map Val.dt : List Val).length,
      (([(c, vals)] : List (String × List Val)).any
        (fun cc => !is_null (cc.2.getD i .null) false)) = true := by
    intro i hi
    rw [hl1, List.mem_range] at hi
    have hi2 : i < vals.length := by omega
    obtain ⟨k, hk, _⟩ := hvals (vals.getD i .null) (getD_mem vals i .null hi2)
    show (!is_null ((c, vals).2.getD i Val.null) false || false) = true
    rw [hk]
    rfl
  rw [List.filter_eq_self.mpr hpred]
  dsimp only
  congr 1
  · exact map_getD_range (ts.map Val.dt) .null
  · simp only [List.map_cons, List.map_nil]
    rw [hl1, ← hlen]
    rw [map_getD_range vals .null]

end IndbSpec

namespace IndbSpec

theorem get_ts_dt_index (labels : Dict) (prec : String) (den : Int)
    (hden : precDen prec = some den) (cols : List (String × List Val)) (ts : List Int) :
    get_ts labels false prec ⟨ts.map Val.dt, cols⟩ =
      .ok (some (ts.map (fun x => Val.int (x.tdiv den)))) := by
  unfold get_ts
  rw [show (⟨ts.map Val.dt, cols⟩ : Df).index = ts.map Val.dt from rfl]
  rw [traverseDt_map_dt]
  unfold render_ts
  rw [hden]
  simp only [Bool.false_eq_true, if_false]
  have hall : ((ts.map some).all (fun t => t.isSome)) = true := by
    rw [List.all_eq_true]
    intro t ht
    obtain ⟨x, _, hx⟩ := List.mem_map.mp ht
    rw [← hx]
    rfl
  rw [hall]
  simp only [if_true, List.map_map, Except.map]
  rfl

theorem C5_encode (c : String) (ts : List Int) (vals : List Val)
    (hlen : vals.length = ts.length) (h2 : 2 ≤ ts.length)
    (hc1 : startsWithS c "_" = false) (hc2 : c ≠ "time")
    (hc4 : ∀ kv ∈ default_inline_labels, kv.2 ≠ c)
    (hvals : ∀ v ∈ vals, ∃ k, v = Val.int k ∧ k ≠ 0)
    (hnd : (ts.map (fun x => x.tdiv 1000000)).Nodup) :
    df_to_indb ⟨ts.map Val.dt, [(c, vals)]⟩ [] none none none none none none
        true "ms" false true =
      .ok ⟨(List.range ts.length).map (fun i =>
              ⟨c, [("value", vals.getD i .null)], some "ms",
               some (Val.int ((ts.getD i 0).tdiv 1000000)), none⟩),
           "ms", none, none, none, none⟩ := by
  have hcbeq : (c == "time") = false := by simp [hc2]
  have hn0 : ((ts.map Val.dt : List Val).length == 0) = false := by
    simp only [List.length_map, beq_eq_false_iff_ne, ne_eq]
    omega
  unfold df_to_indb df_to_indb_run
  dsimp only
  rw [hn0]
  simp only [Bool.false_eq_true, if_false]
  have hL1 : encode_labels1 [] none = ([] : Dict) := rfl
  rw [hL1]
  have hIL : (Option.getD (none : Option (List (String × String))) default_inline_labels) =
      default_inline_labels := rfl
  rw [hIL]
  rw [prepare_id c ts vals hlen h2 hc2 hc4 hvals]
  rw [hn0]
  simp only [Bool.false_eq_true, if_false]
  rw [get_ts_dt_index [] "ms" 1000000 rfl [(c, vals)] ts]
  dsimp only
  set tsVals := ts.map (fun x => Val.int (x.tdiv 1000000)) with htsVals
  have hwt : with_time_col ⟨ts.map Val.dt, [(c, vals)]⟩ (some tsVals) =
      ⟨ts.map Val.dt, [(c, vals), ("time", tsVals)]⟩ := by
    unfold with_time_col Df.setCol
    simp only [setColAux, hcbeq, Bool.false_eq_true, if_false]
  have hnocol : ∀ kv ∈ default_inline_labels,
      (⟨ts.map Val.dt, [(c, vals), ("time", tsVals)]⟩ : Df).hasCol kv.1 = false := by
    intro kv hkv
    have hu : startsWithS kv.1 "_" = true := by
      simp only [default_inline_labels, List.mem_cons, List.not_mem_nil, or_false] at hkv
      rcases hkv with h | h | h | h <;> rw [h] <;> decide
    have hcne : (c == kv.1) = false := by
      cases hcc : c == kv.1 with
      | false => rfl
      | true =>
        have hcc2 : c = kv.1 := by simpa using hcc
        rw [← hcc2] at hu
        rw [hu] at hc1
        exact absurd hc1 (by simp)
    have htne : ("time" == kv.1) = false := by
      cases hcc : "time" == kv.1 with
      | false => rfl
      | true =>
        have heq : "time" = kv.1 := by simpa using hcc
        rw [← heq] at hu
        exact absurd hu (by decide)
    simp [Df.hasCol, hcne, htne]
  have hgv : (⟨ts.map Val.dt, [(c, vals), ("time", tsVals)]⟩ : Df).getColVals "time" =
      tsVals := by
    simp [Df.getColVals, List.find?_cons, hcbeq]
  have hndv : tsVals.Nodup := by
    rw [htsVals]
    have hmm2 : (ts.map (fun x => Val.int (x.tdiv 1000000))) =
        ((ts.map (fun x => x.tdiv 1000000)).map Val.int) := by
      rw [List.map_map]
      rfl
    rw [hmm2]
    exact hnd.map (fun a b h => by simpa using h)
  have hded : (tsVals.dedup.length == 1) = false := by
    rw [List.dedup_eq_self.mpr hndv]
    have hlv : tsVals.length = ts.length := by rw [htsVals]; simp
    rw [hlv]
    simp only [beq_eq_false_iff_ne, ne_eq]
    omega
  unfold encode_points encode_emit_df
  rw [hwt, factorTags_id default_inline_labels _ [] hnocol]
  dsimp only
  rw [hgv, hded]
  simp only [Bool.false_eq_true, if_false, Bool.false_and, List.isEmpty_nil, if_true]
  have hTu : startsWithS "time" "_" = false := by decide
  have hrow : ∀ i ∈ List.range ts.length,
      emitRow [] default_inline_labels [] "" "ms" true
        ⟨ts.map Val.dt, [(c, vals), ("time", tsVals)]⟩ i =
      [⟨c, [("value", vals.getD i .null)], some "ms",
        some (Val.int ((ts.getD i 0).tdiv 1000000)), none⟩] := by
    intro i hi
    rw [List.mem_range] at hi
    have hi2 : i < vals.length := by omega
    obtain ⟨k, hk, hk0⟩ := hvals (vals.getD i .null) (getD_mem vals i .null hi2)
    have hkb : (k == 0) = false := by simpa using hk0
    have hti : tsVals.getD i .null = Val.int ((ts.getD i 0).tdiv 1000000) := by
      rw [htsVals]
      exact getD_map (fun x => Val.int (x.tdiv 1000000)) .null 0 ts i hi
    have hrc : (⟨ts.map Val.dt, [(c, vals), ("time", tsVals)]⟩ : Df).rowCells i =
        [(c, Val.int k), ("time", Val.int ((ts.getD i 0).tdiv 1000000))] := by
      unfold Df.rowCells
      simp only [List.map_cons, List.map_nil]
      rw [hk, hti]
    unfold emitRow
    rw [hrc, hk]
    simp [rowTags, rowPoints, point_ts, point_tags, json_valid, hcbeq, hc1, hkb, hTu,
      is_null, List.filterMap_cons, hc2]
  have hemit : emitPoints [] default_inline_labels ((none : Option (List String)).getD [])
      (norm_ns none) (to_precision "ms") true
      ⟨ts.map Val.dt, [(c, vals), ("time", tsVals)]⟩ =
      (List.range ts.length).map (fun i =>
        ⟨c, [("value", vals.getD i .null)], some "ms",
         some (Val.int ((ts.getD i 0).tdiv 1000000)), none⟩) := by
    unfold emitPoints
    have hlr : (⟨ts.map Val.dt, [(c, vals), ("time", tsVals)]⟩ : Df).index.length =
        ts.length := by simp
    rw [hlr]
    exact foldr_rows_map (List.range ts.length) _ _ hrow
  rw [hemit]
  have hne : (((List.range ts.length).map (fun i =>
      (⟨c, [("value", vals.getD i .null)], some "ms",
       some (Val.int ((ts.getD i 0).tdiv 1000000)), none⟩ : Point))).isEmpty) = false := by
    cases hr : List.range ts.length with
    | nil =>
      have := List.range_eq_nil.mp hr
      omega
    | cons a t => rfl
  rw [hne]
  simp only [Bool.false_eq_true, if_false]
  rfl

end IndbSpec

namespace IndbSpec

theorem head_tags_none (l : List Point) (h : ∀ p ∈ l, p.tags = none) :
    ((l.head?.bind (fun p => p.tags)).getD []) = [] := by
  cases l with
  | nil => rfl
  | cons a t =>
    show ((some a).bind (fun p => p.tags)).getD [] = []
    rw [Option.some_bind, h a (by simp)]
    rfl

theorem map_getD_range_comp {α β : Type} (l : List α) (d : α) (f : α → β) :
    (List.range l.length).map (fun i => f (l.getD i d)) = l.map f := by
  have h2 : (List.range l.length).map (fun i => f (l.getD i d)) =
      ((List.range l.length).map (fun i => l.getD i d)).map f := by
    rw [List.map_map]
    rfl
  rw [h2, map_getD_range]

theorem C5_resp (c : String) (n : Nat) (vf : Nat → Val) (ef : Nat → Int)
    (hn : n ≠ 0) :
    respOfBatch ⟨(List.range n).map (fun i => ⟨c, [("value", vf i)], some "ms",
        some (Val.int (ef i)), none⟩), "ms", none, none, none, none⟩ =
      .chunks [⟨none, some [⟨some c, [], some ["time", "value"],
        some ((List.range n).map (fun i => [Val.dt (ef i * 1000000), vf i]))⟩]⟩] := by
  unfold respOfBatch
  dsimp only
  have hrne : List.range n ≠ [] := by
    intro h
    exact hn (List.range_eq_nil.mp h)
  have hnames : (((List.range n).map (fun i => (⟨c, [("value", vf i)], some "ms",
      some (Val.int (ef i)), none⟩ : Point))).map (fun p => p.name)).dedup = [c] := by
    rw [List.map_map]
    exact const_map_dedup (List.range n) c hrne
  rw [hnames]
  simp only [List.map_cons, List.map_nil]
  have hfilt : ((List.range n).map (fun i => (⟨c, [("value", vf i)], some "ms",
      some (Val.int (ef i)), none⟩ : Point))).filter (fun p => p.name == c) =
      (List.range n).map (fun i => (⟨c, [("value", vf i)], some "ms",
        some (Val.int (ef i)), none⟩ : Point)) := by
    apply List.filter_eq_self.mpr
    intro p hp
    obtain ⟨i, _, hpi⟩ := List.mem_map.mp hp
    rw [← hpi]
    simp
  rw [hfilt]
  have hall : ((List.range n).map (fun i => (⟨c, [("value", vf i)], some "ms",
      some (Val.int (ef i)), none⟩ : Point))).all (fun p =>
        (effTsInt ⟨(List.range n).map (fun i => ⟨c, [("value", vf i)], some "ms",
          some (Val.int (ef i)), none⟩), "ms", none, none, none, none⟩ p).isSome) = true := by
    rw [List.all_eq_true]
    intro p hp
    obtain ⟨i, _, hpi⟩ := List.mem_map.mp hp
    rw [← hpi]
    rfl
  rw [hall]
  simp only [if_true]
  have htags : ((((List.range n).map (fun i => (⟨c, [("value", vf i)], some "ms",
      some (Val.int (ef i)), none⟩ : Point))).head?.bind (fun p => p.tags)).getD []) = [] := by
    apply head_tags_none
    intro p hp
    obtain ⟨i, _, hpi⟩ := List.mem_map.mp hp
    rw [← hpi]
  rw [htags]
  have hvals2 : ((List.range n).map (fun i => (⟨c, [("value", vf i)], some "ms",
      some (Val.int (ef i)), none⟩ : Point))).map (fun p =>
        [Val.dt (((effTsInt ⟨(List.range n).map (fun i => ⟨c, [("value", vf i)], some "ms",
            some (Val.int (ef i)), none⟩), "ms", none, none, none, none⟩ p).getD 0) *
          denOfPrecOut "ms")] ++
        [((p.fields.find? (fun f => f.1 == "value")).map (fun f => f.2)).getD .null]) =
      (List.range n).map (fun i => [Val.dt (ef i * 1000000), vf i]) := by
    rw [List.map_map]
    rfl
  rw [hvals2]
  rfl

end IndbSpec

namespace IndbSpec

theorem valLe_dt (x y : Int) : valLe (Val.dt x) (Val.dt y) = decide (x ≤ y) := rfl

theorem range_getD (n i : Nat) (h : i < n) : (List.range n).getD i 0 = i := by
  unfold List.getD
  rw [List.get?_eq_getElem?, List.getElem?_range h]
  rfl

theorem C5_series (c : String) (n : Nat) (vf : Nat → Val) (ef : Nat → Int)
    (hn : n ≠ 0) (hc2 : c ≠ "time") (hc5 : c.isEmpty = false) :
    decode_series_row [none] default_inline_labels
      ⟨some c, [], some ["time", "value"],
       some ((List.range n).map (fun i => [Val.dt (ef i * 1000000), vf i]))⟩ =
      .ok (some ("unknown",
        ⟨(List.range n).map (fun i => Val.dt (ef i * 1000000)),
         [(c, (List.range n).map vf)]⟩)) := by
  have hrne : ((List.range n).map
      (fun i => [Val.dt (ef i * 1000000), vf i])).isEmpty = false := by
    rw [Bool.eq_false_iff]
    intro h
    exact hn (List.range_eq_nil.mp (List.map_eq_nil_iff.mp (List.isEmpty_iff.mp h)))
  unfold decode_series_row
  dsimp only
  rw [hrne]
  simp only [List.isEmpty_cons, Bool.false_or, Bool.false_eq_true, if_false]
  have hnm : ["time", "value"].map (name_of [none] (some c)) = ["time", c] := by
    have ha : name_of [none] (some c) "time" = "time" := rfl
    have hb : name_of [none] (some c) "value" = c := by
      unfold name_of
      simp [hc5]
    rw [List.map_cons, List.map_cons, List.map_nil, ha, hb]
  rw [hnm]
  have hdfv : dfOfValues ["time", c]
      ((List.range n).map (fun i => [Val.dt (ef i * 1000000), vf i])) =
      ⟨(List.range ((List.range n).map
          (fun i => [Val.dt (ef i * 1000000), vf i])).length).map (fun i => Val.int i),
       [("time", ((List.range n).map (fun i => [Val.dt (ef i * 1000000), vf i])).map
          (fun r => r.getD 0 .null)),
        (c, ((List.range n).map (fun i => [Val.dt (ef i * 1000000), vf i])).map
          (fun r => r.getD 1 .null))]⟩ := rfl
  rw [hdfv]
  have hcol0 : ((List.range n).map (fun i => [Val.dt (ef i * 1000000), vf i])).map
      (fun r => r.getD 0 .null) =
      (List.range n).map (fun i => Val.dt (ef i * 1000000)) := by
    rw [List.map_map]
    rfl
  have hcol1 : ((List.range n).map (fun i => [Val.dt (ef i * 1000000), vf i])).map
      (fun r => r.getD 1 .null) = (List.range n).map vf := by
    rw [List.map_map]
    rfl
  rw [hcol0, hcol1]
  rw [if_pos (show ((⟨(List.range ((List.range n).map
        (fun i => [Val.dt (ef i * 1000000), vf i])).length).map (fun i => Val.int i),
      [("time", (List.range n).map (fun i => Val.dt (ef i * 1000000))),
       (c, (List.range n).map vf)]⟩ : Df).hasCol "time") = true from rfl)]
  have hgv : (⟨(List.range ((List.range n).map
        (fun i => [Val.dt (ef i * 1000000), vf i])).length).map (fun i => Val.int i),
      [("time", (List.range n).map (fun i => Val.dt (ef i * 1000000))),
       (c, (List.range n).map vf)]⟩ : Df).getColVals "time" =
      ((List.range n).map (fun i => ef i * 1000000)).map Val.dt := by
    show (List.range n).map (fun i => Val.dt (ef i * 1000000)) = _
    rw [List.map_map]
    rfl
  rw [hgv, traverseDt_map_dt]
  dsimp only
  have hidx : (((List.range n).map (fun i => ef i * 1000000)).map some).map
      (fun t => match t with | some m => Val.dt m | none => Val.null) =
      (List.range n).map (fun i => Val.dt (ef i * 1000000)) := by
    rw [List.map_map, List.map_map]
    rfl
  rw [hidx]
  have hdropc : ((⟨(List.range ((List.range n).map
        (fun i => [Val.dt (ef i * 1000000), vf i])).length).map (fun i => Val.int i),
      [("time", (List.range n).map (fun i => Val.dt (ef i * 1000000))),
       (c, (List.range n).map vf)]⟩ : Df).dropCol "time").cols =
      [(c, (List.range n).map vf)] := by
    show [("time", (List.range n).map (fun i => Val.dt (ef i * 1000000))),
          (c, (List.range n).map vf)].filter (fun p => p.1 != "time") =
      [(c, (List.range n).map vf)]
    simp [hc2]
  rw [hdropc]
  rfl

end IndbSpec

namespace IndbSpec

theorem pdConcat_single (idx : List Val) (c : String) (col : List Val) :
    pdConcat [⟨idx, [(c, col)]⟩] = ⟨idx, [(c, col)]⟩ := by
  unfold pdConcat
  dsimp only
  have hn : ([(⟨idx, [(c, col)]⟩ : Df)].flatMap
      (fun d => d.cols.map (fun p => p.1))).dedup = [c] := by
    show List.dedup [c] = [c]
    rw [List.dedup_cons_of_not_mem (List.not_mem_nil c), List.dedup_nil]
  rw [hn]
  simp only [List.map_cons, List.map_nil, List.flatMap_cons, List.flatMap_nil,
    List.append_nil]
  rw [if_pos (show ((⟨idx, [(c, col)]⟩ : Df).hasCol c) = true by simp [Df.hasCol])]
  have hgc : (⟨idx, [(c, col)]⟩ : Df).getColVals c = col := by
    simp [Df.getColVals]
  rw [hgc]

theorem C5_sort (c : String) (n : Nat) (vf : Nat → Val) (ef : Nat → Int)
    (hmono : ∀ i j, i < j → j < n → ef i < ef j) :
    (⟨(List.range n).map (fun i => Val.dt (ef i * 1000000)),
      [(c, (List.range n).map vf)]⟩ : Df).sortIndex =
    ⟨(List.range n).map (fun i => Val.dt (ef i * 1000000)),
     [(c, (List.range n).map vf)]⟩ := by
  unfold Df.sortIndex
  have hrows : (⟨(List.range n).map (fun i => Val.dt (ef i * 1000000)),
      [(c, (List.range n).map vf)]⟩ : Df).rows =
      (List.range n).map (fun i => (Val.dt (ef i * 1000000), [vf i])) := by
    unfold Df.rows
    dsimp only
    rw [List.length_map, List.length_range]
    apply List.map_congr_left
    intro i hi
    have hin : i < n := List.mem_range.mp hi
    have h1 : ((List.range n).map (fun j => Val.dt (ef j * 1000000))).getD i Val.null
        = Val.dt (ef i * 1000000) := by
      rw [getD_map (fun j => Val.dt (ef j * 1000000)) Val.null 0 (List.range n) i
        (by simpa using hin), range_getD n i hin]
    have h2 : ((List.range n).map vf).getD i Val.null = vf i := by
      rw [getD_map vf Val.null 0 (List.range n) i (by simpa using hin),
        range_getD n i hin]
    simp only [List.map_cons, List.map_nil]
    rw [h1, h2]
  have hpw : ((List.range n).map
      (fun i => (Val.dt (ef i * 1000000), [vf i]))).Pairwise
      (fun a b => valLe b.1 a.1 = false) := by
    rw [List.pairwise_map, List.pairwise_iff_getElem]
    intro i j hi hj hij
    rw [List.length_range] at hi hj
    rw [List.getElem_range, List.getElem_range]
    show valLe (Val.dt (ef j * 1000000)) (Val.dt (ef i * 1000000)) = false
    rw [valLe_dt]
    have hlt : ef i < ef j := hmono i j hij hj
    simp only [decide_eq_false_iff_not, not_le]
    omega
  simp only [List.map_cons, List.map_nil]
  rw [hrows, sortRows_sorted _ hpw]
  show (⟨((List.range n).map (fun i => (Val.dt (ef i * 1000000), [vf i]))).map
      (fun r => r.1),
    [(c, ((List.range n).map (fun i => (Val.dt (ef i * 1000000), [vf i]))).map
      (fun r => r.2.getD 0 .null))]⟩ : Df) = _
  rw [List.map_map, List.map_map]
  rfl

end IndbSpec

namespace IndbSpec

theorem C5_decode (c : String) (n : Nat) (vf : Nat → Val) (ef : Nat → Int)
    (hn : n ≠ 0) (hc2 : c ≠ "time") (hc5 : c.isEmpty = false)
    (hmono : ∀ i j, i < j → j < n → ef i < ef j) :
    response_to_df (.chunks [⟨none, some [⟨some c, [], some ["time", "value"],
        some ((List.range n).map (fun i => [Val.dt (ef i * 1000000), vf i]))⟩]⟩])
      none none [] =
    .ok ⟨(List.range n).map (fun i => Val.dt (ef i * 1000000)),
         [(c, (List.range n).map vf)]⟩ := by
  have hdr : decode_rows [none] default_inline_labels
      [⟨some c, [], some ["time", "value"],
        some ((List.range n).map (fun i => [Val.dt (ef i * 1000000), vf i]))⟩] [] =
      .ok [("unknown",
        [⟨(List.range n).map (fun i => Val.dt (ef i * 1000000)),
          [(c, (List.range n).map vf)]⟩])] := by
    rw [decode_rows, C5_series c n vf ef hn hc2 hc5]
    rfl
  have hdc : decode_chunks [none] default_inline_labels 0
      [⟨none, some [⟨some c, [], some ["time", "value"],
        some ((List.range n).map (fun i => [Val.dt (ef i * 1000000), vf i]))⟩]⟩] [] =
      .ok [("unknown",
        [⟨(List.range n).map (fun i => Val.dt (ef i * 1000000)),
          [(c, (List.range n).map vf)]⟩])] := by
    rw [decode_chunks]
    dsimp only
    simp only [List.isEmpty_cons, Bool.false_eq_true, if_false]
    rw [hdr]
    rfl
  unfold response_to_df
  dsimp only
  simp only [List.map_nil, Option.getD_none]
  rw [hdc]
  dsimp only
  simp only [List.isEmpty_cons, Bool.false_eq_true, if_false]
  have hfl : ([("unknown",
      [(⟨(List.range n).map (fun i => Val.dt (ef i * 1000000)),
        [(c, (List.range n).map vf)]⟩ : Df)])].filter
      (fun b => !b.2.isEmpty)) =
      [("unknown",
        [⟨(List.range n).map (fun i => Val.dt (ef i * 1000000)),
          [(c, (List.range n).map vf)]⟩])] := rfl
  rw [hfl]
  simp only [List.map_cons, List.map_nil]
  rw [pdConcat_single, pdConcat_single, C5_sort c n vf ef hmono]
  rfl

end IndbSpec

namespace IndbSpec

theorem getD_getElem {α : Type} : ∀ (l : List α) (i : Nat) (d : α)
    (h : i < l.length), l.getD i d = l[i]
  | a :: t, 0, d, h => rfl
  | a :: t, i + 1, d, h => getD_getElem t i d (by simpa using h)

/-- C5: restricted round-trip. Encoding a table whose index is a
strictly-increasing (at ms granularity) datetime index and whose single field
column holds non-zero integer cells, then decoding the equivalent
query-response shape of the resulting batch with the same (absent) namespace
and default inline labels, reproduces the table up to ms truncation of the
timestamps. -/
theorem C5_roundtrip_restricted (c : String) (ts : List Int) (vals : List Val)
    (B : Batch)
    (hlen : vals.length = ts.length) (h2 : 2 ≤ ts.length)
    (hc1 : startsWithS c "_" = false) (hc2 : c ≠ "time") (hc5 : c.isEmpty = false)
    (hc4 : ∀ kv ∈ default_inline_labels, kv.2 ≠ c)
    (hvals : ∀ v ∈ vals, ∃ k, v = Val.int k ∧ k ≠ 0)
    (hts : ts.Pairwise (fun a b => a.tdiv 1000000 < b.tdiv 1000000))
    (hB : df_to_indb ⟨ts.map Val.dt, [(c, vals)]⟩ [] none none none none none none
        true "ms" false true = .ok B) :
    response_to_df (respOfBatch B) none none [] =
      .ok ⟨ts.map (fun x => Val.dt (x.tdiv 1000000 * 1000000)), [(c, vals)]⟩ := by
  have hnd : (ts.map (fun x => x.tdiv 1000000)).Nodup := by
    rw [List.Nodup, List.pairwise_map]
    exact hts.imp (fun h => ne_of_lt h)
  rw [C5_encode c ts vals hlen h2 hc1 hc2 hc4 hvals hnd] at hB
  have hBeq : B = ⟨(List.range ts.length).map (fun i =>
      ⟨c, [("value", vals.getD i .null)], some "ms",
       some (Val.int ((ts.getD i 0).tdiv 1000000)), none⟩),
      "ms", none, none, none, none⟩ := by
    cases hB
    rfl
  subst hBeq
  have hn : ts.length ≠ 0 := by omega
  have hmono : ∀ i j, i < j → j < ts.length →
      (ts.getD i 0).tdiv 1000000 < (ts.getD j 0).tdiv 1000000 := by
    intro i j hij hj
    have hi : i < ts.length := lt_trans hij hj
    rw [getD_getElem ts i 0 hi, getD_getElem ts j 0 hj]
    exact (List.pairwise_iff_getElem.mp hts) i j hi hj hij
  rw [C5_resp c ts.length (fun i => vals.getD i .null)
      (fun i => (ts.getD i 0).tdiv 1000000) hn,
    C5_decode c ts.length (fun i => vals.getD i .null)
      (fun i => (ts.getD i 0).tdiv 1000000) hn hc2 hc5 hmono]
  have hix : (List.range ts.length).map
      (fun i => Val.dt ((ts.getD i 0).tdiv 1000000 * 1000000)) =
      ts.map (fun x => Val.dt (x.tdiv 1000000 * 1000000)) :=
    map_getD_range_comp ts 0 (fun x => Val.dt (x.tdiv 1000000 * 1000000))
  have hcl : (List.range ts.length).map (fun i => vals.getD i Val.null) = vals := by
    rw [← hlen]
    exact map_getD_range vals Val.null
  rw [hix, hcl]

end IndbSpec

namespace IndbSpec

/-- C5 witness: the two-row table with index [epoch, epoch+2ms] and field
column temp = [20, 21] round-trips through encode and response-decode. -/
theorem C5_roundtrip_witness :
    (∀ v ∈ [Val.int 20, Val.int 21], ∃ k, v = Val.int k ∧ k ≠ 0) ∧
    ([(0 : Int), 2000000].Pairwise (fun a b => a.tdiv 1000000 < b.tdiv 1000000)) ∧
    df_to_indb ⟨[Val.dt 0, Val.dt 2000000], [("temp", [Val.int 20, Val.int 21])]⟩
        [] none none none none none none true "ms" false true =
      .ok ⟨[⟨"temp", [("value", Val.int 20)], some "ms", some (Val.int 0), none⟩,
            ⟨"temp", [("value", Val.int 21)], some "ms", some (Val.int 2), none⟩],
           "ms", none, none, none, none⟩ ∧
    response_to_df (respOfBatch
        ⟨[⟨"temp", [("value", Val.int 20)], some "ms", some (Val.int 0), none⟩,
          ⟨"temp", [("value", Val.int 21)], some "ms", some (Val.int 2), none⟩],
         "ms", none, none, none, none⟩) none none [] =
      .ok ⟨[Val.dt 0, Val.dt 2000000], [("temp", [Val.int 20, Val.int 21])]⟩ := by
  refine ⟨?_, by decide, rfl, ?_⟩
  · intro v hv
    rcases List.mem_cons.mp hv with h | h
    · exact ⟨20, by rw [h], by decide⟩
    · rcases List.mem_cons.mp h with h3 | h3
      · exact ⟨21, by rw [h3], by decide⟩
      · exact absurd h3 (List.not_mem_nil v)
  · exact C5_roundtrip_restricted "temp" [0, 2000000] [Val.int 20, Val.int 21]
      ⟨[⟨"temp", [("value", Val.int 20)], some "ms", some (Val.int 0), none⟩,
        ⟨"temp", [("value", Val.int 21)], some "ms", some (Val.int 2), none⟩],
       "ms", none, none, none, none⟩
      rfl (by decide) rfl (by decide) rfl (by decide)
      (by intro v hv
          rcases List.mem_cons.mp hv with h | h
          · exact ⟨20, by rw [h], by decide⟩
          · rcases List.mem_cons.mp h with h3 | h3
            · exact ⟨21, by rw [h3], by decide⟩
            · exact absurd h3 (List.not_mem_nil v))
      (by decide) rfl

/-- C5 counterexample: a zero-valued cell is non-null under the native null
test, yet encode followed by response-decode drops it (the zero-as-missing
drop is hard-coded in the field loop), so the round-trip does not reproduce
all non-null cells of the general table. -/
theorem C5_counterexample :
    df_to_indb ⟨[Val.dt 0, Val.dt 2000000], [("temp", [Val.int 0, Val.int 21])]⟩
        [] none none none none none none true "ms" false true =
      .ok ⟨[⟨"temp", [("value", Val.int 21)], some "ms", some (Val.int 2), none⟩],
           "ms", none, none, none, none⟩ ∧
    response_to_df (respOfBatch
        ⟨[⟨"temp", [("value", Val.int 21)], some "ms", some (Val.int 2), none⟩],
         "ms", none, none, none, none⟩) none none [] =
      .ok ⟨[Val.dt 2000000], [("temp", [Val.int 21])]⟩ ∧
    is_null (Val.int 0) false = false :=
  ⟨rfl, rfl, rfl⟩

end IndbSpec
